import Mathlib

/-!
Verification development for the CSV localizer script `update_tags_ja.py`.

The script reads a CSV file (UTF-8, universal-newline text mode), takes the
first record as the header, appends the column label DescriptionJa to the
header when it has fewer than 3 fields, and for every further record looks
up field 0 in a fixed translation table (defaulting to the empty string),
appending the result when the record has fewer than 3 fields and overwriting
index 2 otherwise.  The result is written with Python's csv.writer (comma
delimiter, minimal double-quote quoting, CRLF record terminator) to a
separate output path which is then moved over the input path with os.replace.

Characters, fields, rows and documents are modelled as lists; byte contents
as lists of naturals.  The Python csv reader's per-character state machine
(default dialect, strict=False) and the writer's joining algorithm are
embedded directly, as is a UTF-8 codec, so that the whole pipeline is
executable.
-/

/-- Shorthand turning a string literal into the character-list representation
used throughout this development. -/
def lc (s : String) : List Char := s.toList

/-- A CSV field is a sequence of characters. -/
abbrev CsvField := List Char

/-- A CSV record is a sequence of fields. -/
abbrev CsvRow := List CsvField

/-- A CSV document is a sequence of records; the first one is the header. -/
abbrev CsvDoc := List CsvRow

/-- The NUL character, which Python's csv reader rejects. -/
def nulChar : Char := Char.ofNat 0

/-- The hardcoded translation table of the script, as an association list
from tag name to Japanese description. -/
def translations : List (CsvField × CsvField) :=
  [ (lc "^value(expression)^", lc "指定した式を評価して、その結果を文字列として書き出します。属性の値や、計算結果、連結された文字列などを出力する際に使用します。"),
    (lc "^action( action )^", lc "アクションコードを実行します。このタグ自体は何も書き出しませんが、書き出し中にノートの属性（$Colorなど）を永続的に変更したり、変数を操作したりするのに使用します。"),
    (lc "^if( condition )^", lc "指定された条件（アクションコード式のクエリ）を評価します。真（true）の場合、その後のコード（または^else^まで）が書き出されます。"),
    (lc "^else^", lc "^if^タグの条件が偽（false）だった場合に書き出すブロックを開始します。"),
    (lc "^endIf^", lc "^if^ブロックの終了を示します。"),
    (lc "^include( ^value(item|group)^[, ^value(template)^] )^", lc "指定したノート（またはノートのグループ）を、指定したテンプレート（省略時はそのノートのデフォルトテンプレート）を使用して取り込みます。"),
    (lc "^title( [item] )^", lc "ノートのタイトル（$Name）を書き出します。HTMLエンティティが適切に処理されます。"),
    (lc "^text( [item, N, plain] )^", lc "ノートの本文（$Text）を書き出します。特定の段落数(N)のみや、プレーンテキストとしての出力も可能です。"),
    (lc "^children( [template][,N] )^", lc "現在のノートの直下の子ノートを、指定したテンプレートで書き出します。"),
    (lc "^descendants( [template][,N] )^", lc "現在のノートのすべての子孫ノートを、指定したテンプレートで書き出します。"),
    (lc "^root^", lc "サイトのルートディレクトリへの相対パスを書き出します。画像やCSSへのパス指定に便利です。"),
    (lc "^url( item )^", lc "エクスポートされるHTMLページへの相対URLを書き出します。") ]

/-- Dictionary lookup, modelling Python's dict indexing on an association
list with distinct keys. -/
def lookup (t : List (CsvField × CsvField)) (k : CsvField) : Option CsvField :=
  match t with
  | [] => none
  | (k', v) :: rest => if k = k' then some v else lookup rest k

/-- Header handling of the script: append the label DescriptionJa when the
header has fewer than 3 fields, leave it alone otherwise. -/
def augmentHeader (h : CsvRow) : CsvRow :=
  if h.length < 3 then h ++ [lc "DescriptionJa"] else h

/-- Body of the augment loop for one data record.  The script reads row[0]
and row[1] unconditionally (so a record with fewer than 2 fields raises an
IndexError, modelled as none), computes translations.get(row[0], ""), and
appends it when the record has fewer than 3 fields, overwriting index 2
otherwise. -/
def augmentRow (t : List (CsvField × CsvField)) (r : CsvRow) : Option CsvRow :=
  match r with
  | a :: _ :: _ =>
    let d := (lookup t a).getD []
    some (if r.length < 3 then r ++ [d] else r.set 2 d)
  | _ => none

/-- The augment loop over all data records; the first failing record aborts
the run. -/
def augmentRows (t : List (CsvField × CsvField)) : List CsvRow → Option (List CsvRow)
  | [] => some []
  | r :: rs =>
    match augmentRow t r with
    | none => none
    | some r' =>
      match augmentRows t rs with
      | none => none
      | some rs' => some (r' :: rs')

/-- The whole in-memory transform: the first record is the header (an empty
document makes next(reader) raise StopIteration, modelled as none), the
remaining records go through the augment loop. -/
def augmentDoc (t : List (CsvField × CsvField)) : CsvDoc → Option CsvDoc
  | [] => none
  | h :: rows =>
    match augmentRows t rows with
    | none => none
    | some rows' => some (augmentHeader h :: rows')

/-- Universal-newline translation performed by Python's text mode (the input
file is opened without newline=''): CRLF and lone CR both become LF. -/
def uniNewlines : List Char → List Char
  | [] => []
  | [c] => if c = '\r' then ['\n'] else [c]
  | c1 :: c2 :: rest =>
    if c1 = '\r' then
      if c2 = '\n' then '\n' :: uniNewlines rest
      else '\n' :: uniNewlines (c2 :: rest)
    else c1 :: uniNewlines (c2 :: rest)

/-- States of the csv.reader per-character machine (default dialect,
doublequote=True, strict=False, no escape character).  After
universal-newline translation the stream contains no CR, so the EAT_CRNL
state collapses into startRecord and is not needed. -/
inductive PState
  | startRecord
  | startField
  | inField
  | inQuoted
  | quoteQuoted
deriving Repr, DecidableEq

/-- Executable embedding of the csv.reader state machine.  rec holds the
fields already finished in the current record and fld the characters of the
current field.  At end of data a pending record (any state other than
startRecord) is finished by saving the current field, matching the
non-strict reader, which accepts an unterminated quoted field. -/
def csvRun : PState → CsvRow → CsvField → List Char → List CsvRow
  | .startRecord, _, _, [] => []
  | .startField, rec, fld, [] => [rec ++ [fld]]
  | .inField, rec, fld, [] => [rec ++ [fld]]
  | .inQuoted, rec, fld, [] => [rec ++ [fld]]
  | .quoteQuoted, rec, fld, [] => [rec ++ [fld]]
  | .startRecord, rec, fld, c :: cs =>
    if c = '\n' then [] :: csvRun .startRecord [] [] cs
    else if c = ',' then csvRun .startField (rec ++ [fld]) [] cs
    else if c = '"' then csvRun .inQuoted rec fld cs
    else csvRun .inField rec (fld ++ [c]) cs
  | .startField, rec, fld, c :: cs =>
    if c = '\n' then (rec ++ [fld]) :: csvRun .startRecord [] [] cs
    else if c = ',' then csvRun .startField (rec ++ [fld]) [] cs
    else if c = '"' then csvRun .inQuoted rec fld cs
    else csvRun .inField rec (fld ++ [c]) cs
  | .inField, rec, fld, c :: cs =>
    if c = '\n' then (rec ++ [fld]) :: csvRun .startRecord [] [] cs
    else if c = ',' then csvRun .startField (rec ++ [fld]) [] cs
    else csvRun .inField rec (fld ++ [c]) cs
  | .inQuoted, rec, fld, c :: cs =>
    if c = '"' then csvRun .quoteQuoted rec fld cs
    else csvRun .inQuoted rec (fld ++ [c]) cs
  | .quoteQuoted, rec, fld, c :: cs =>
    if c = '"' then csvRun .inQuoted rec (fld ++ ['"']) cs
    else if c = ',' then csvRun .startField (rec ++ [fld]) [] cs
    else if c = '\n' then (rec ++ [fld]) :: csvRun .startRecord [] [] cs
    else csvRun .inField rec (fld ++ [c]) cs

/-- Parsing a whole (already newline-translated) character stream.  The
reader rejects NUL characters; no other input makes the non-strict machine
fail. -/
def parseCSV (cs : List Char) : Except Unit (List CsvRow) :=
  if nulChar ∈ cs then .error () else .ok (csvRun .startRecord [] [] cs)

example : parseCSV (lc "a,b\nc,d\n") = .ok [[lc "a", lc "b"], [lc "c", lc "d"]] := by rfl

example : parseCSV (lc "a,\x22b,x\x22\n") = .ok [[lc "a", lc "b,x"]] := by rfl

example : parseCSV (lc "a,\x22b\x22\x22c\x22\n") = .ok [[lc "a", lc "b\x22c"]] := by rfl

example : parseCSV (lc "a\n\nb\n") = .ok [[lc "a"], [], [lc "b"]] := by rfl

example : parseCSV (lc "a,\x22b") = .ok [[lc "a", lc "b"]] := by rfl

example : parseCSV (lc "a,") = .ok [[lc "a", []]] := by rfl

example : parseCSV (lc "\x22a\nb\x22\n") = .ok [[lc "a\nb"]] := by rfl

example : parseCSV (lc "\x22a\x22x,y\n") = .ok [[lc "ax", lc "y"]] := by rfl

example : parseCSV [] = .ok [] := by rfl

example : uniNewlines (lc "a\r\nb\rc\n") = lc "a\nb\nc\n" := by decide

/-- Characters forcing csv.writer (QUOTE_MINIMAL) to quote a field: the
delimiter, the quote character and the characters of the CRLF record
terminator. -/
def isSpecial (c : Char) : Bool :=
  c == ',' || c == '"' || c == '\r' || c == '\n'

/-- Quote doubling applied by the writer inside a quoted field. -/
def escQuotes : CsvField → List Char
  | [] => []
  | c :: rest => if c = '"' then '"' :: '"' :: escQuotes rest else c :: escQuotes rest

/-- Serialization of one field under QUOTE_MINIMAL: quoted with doubled
quotes exactly when it contains a special character. -/
def serField (f : CsvField) : List Char :=
  if f.any isSpecial then '"' :: (escQuotes f ++ ['"']) else f

/-- The writer's join of the fields of one record with the comma
delimiter. -/
def serFields : CsvRow → List Char
  | [] => []
  | [f] => serField f
  | f :: g :: gs => serField f ++ ',' :: serFields (g :: gs)

/-- Serialization of one record: the joined fields followed by the CRLF
record terminator.  A record consisting of a single empty field is written
as a quoted empty field, the writer's special case. -/
def serRow (r : CsvRow) : List Char :=
  (if r = [[]] then ['"', '"'] else serFields r) ++ ['\r', '\n']

/-- Serialization of a whole document. -/
def serDoc : CsvDoc → List Char
  | [] => []
  | r :: rs => serRow r ++ serDoc rs

example : serDoc [[lc "a", lc "b,c"], [lc "x\x22y"]]
    = lc "a,\x22b,c\x22\r\n\x22x\x22\x22y\x22\r\n" := by decide

example : serRow [[]] = lc "\x22\x22\r\n" := by decide

example : serRow [] = lc "\r\n" := by decide

/-- Test whether a byte is a UTF-8 continuation byte. -/
def utf8Cont (b : Nat) : Bool := 0x80 ≤ b && b < 0xC0

/-- UTF-8 encoding of one character (code points are valid Unicode scalar
values by construction of Char). -/
def utf8EncodeChar (c : Char) : List Nat :=
  let n := c.toNat
  if n < 0x80 then [n]
  else if n < 0x800 then [0xC0 + n / 64, 0x80 + n % 64]
  else if n < 0x10000 then [0xE0 + n / 4096, 0x80 + n / 64 % 64, 0x80 + n % 64]
  else [0xF0 + n / 262144, 0x80 + n / 4096 % 64, 0x80 + n / 64 % 64, 0x80 + n % 64]

/-- UTF-8 encoding of a character sequence as a byte list. -/
def utf8Encode : List Char → List Nat
  | [] => []
  | c :: cs => utf8EncodeChar c ++ utf8Encode cs

/-- Strict UTF-8 decoding of a byte list, rejecting truncated sequences,
overlong encodings, surrogate code points and code points above U+10FFFF,
exactly the sequences Python's strict utf-8 codec rejects. -/
def utf8Decode : List Nat → Option (List Char)
  | [] => some []
  | b :: rest =>
    if b < 0x80 then (utf8Decode rest).map (fun cs => Char.ofNat b :: cs)
    else if b < 0xC2 then none
    else if b < 0xE0 then
      match rest with
      | b1 :: rest' =>
        if utf8Cont b1 then
          (utf8Decode rest').map (fun cs =>
            Char.ofNat ((b - 0xC0) * 64 + (b1 - 0x80)) :: cs)
        else none
      | _ => none
    else if b < 0xF0 then
      match rest with
      | b1 :: b2 :: rest' =>
        if utf8Cont b1 && utf8Cont b2 && !(b == 0xE0 && b1 < 0xA0)
            && !(b == 0xED && 0xA0 ≤ b1) then
          (utf8Decode rest').map (fun cs =>
            Char.ofNat ((b - 0xE0) * 4096 + (b1 - 0x80) * 64 + (b2 - 0x80)) :: cs)
        else none
      | _ => none
    else if b < 0xF5 then
      match rest with
      | b1 :: b2 :: b3 :: rest' =>
        if utf8Cont b1 && utf8Cont b2 && utf8Cont b3 && !(b == 0xF0 && b1 < 0x90)
            && !(b == 0xF4 && 0x90 ≤ b1) then
          (utf8Decode rest').map (fun cs =>
            Char.ofNat ((b - 0xF0) * 262144 + (b1 - 0x80) * 4096
              + (b2 - 0x80) * 64 + (b3 - 0x80)) :: cs)
        else none
      | _ => none
    else none

example : utf8Encode (lc "aあ") = [97, 227, 129, 130] := by decide

example : utf8Decode [97, 227, 129, 130] = some (lc "aあ") := by rfl

example : utf8Decode [255] = none := by rfl

example : utf8Decode [0xC0, 0x80] = none := by rfl

example : utf8Decode [0xED, 0xA0, 0x80] = none := by rfl

/-- Error kinds a run can abort with.  ioError covers an unreadable input
path, parseError a byte stream that is not valid UTF-8 or contains NUL,
stopIteration an input without a header line, indexError a data record with
fewer than 2 fields, replaceError a failing os.replace. -/
inductive Err
  | ioError
  | parseError
  | stopIteration
  | indexError
  | replaceError
deriving Repr, DecidableEq

/-- The in-memory pipeline on decoded text: universal-newline translation,
csv parsing, the augment transform, and csv serialization.  On success the
result is the text written to the output file. -/
def runText (cs : List Char) : Except Err (List Char) :=
  match parseCSV (uniNewlines cs) with
  | .error _ => .error .parseError
  | .ok [] => .error .stopIteration
  | .ok (h :: rows) =>
    match augmentRows translations rows with
    | none => .error .indexError
    | some rows' => .ok (serDoc (augmentHeader h :: rows'))

/-- The pipeline on raw bytes: UTF-8 decoding, the text pipeline, UTF-8
encoding of the output.  On success the result is the byte content that ends
up at the input path after os.replace. -/
def runFile (b : List Nat) : Except Err (List Nat) :=
  match utf8Decode b with
  | none => .error .parseError
  | some cs => (runText cs).map utf8Encode

/-- The load operation in isolation: an unreadable path (modelled as absent
content) gives ioError, undecodable bytes or NUL characters give parseError,
otherwise the parsed document is returned. -/
def load (inp : Option (List Nat)) : Except Err CsvDoc :=
  match inp with
  | none => .error .ioError
  | some b =>
    match utf8Decode b with
    | none => .error .parseError
    | some cs =>
      match parseCSV (uniNewlines cs) with
      | .error _ => .error .parseError
      | .ok d => .ok d

/-- Contents of the two paths the script touches: the input path (which is
also the final path) and the temporary output path.  none models an absent
or unreadable file. -/
structure FS where
  input : Option (List Nat)
  output : Option (List Nat)
deriving Repr, DecidableEq

/-- The write loop of the script on the file system: each data record is
augmented and appended to the output file; after the last record the files
are closed and os.replace moves the output over the input (failure of the
replace step is modelled by the replaceOk flag).  Returns the trace of
intermediate file states, the final state, and the outcome. -/
def writeLoop (hdr : CsvRow) (written : List CsvRow) (rows : List CsvRow)
    (replaceOk : Bool) (f : FS) : List FS × FS × Except Err Unit :=
  match rows with
  | [] =>
    if replaceOk then
      let f' : FS := ⟨f.output, none⟩
      ([f'], f', .ok ())
    else ([], f, .error .replaceError)
  | r :: rs =>
    match augmentRow translations r with
    | none => ([], f, .error .indexError)
    | some r' =>
      let f' : FS := ⟨f.input, some (utf8Encode (serDoc (hdr :: (written ++ [r']))))⟩
      let rest := writeLoop hdr (written ++ [r']) rs replaceOk f'
      (f' :: rest.1, rest.2)

/-- The whole run on the file system: open input for reading (ioError when
absent), open output for writing (truncating it), decode and parse, write
the augmented header, run the write loop, then replace.  Returns the trace
of intermediate states, the final state, and the outcome. -/
def runFS (replaceOk : Bool) (fs : FS) : List FS × FS × Except Err Unit :=
  match fs.input with
  | none => ([], fs, .error .ioError)
  | some b =>
    let f1 : FS := ⟨fs.input, some []⟩
    match utf8Decode b with
    | none => ([f1], f1, .error .parseError)
    | some cs =>
      match parseCSV (uniNewlines cs) with
      | .error _ => ([f1], f1, .error .parseError)
      | .ok [] => ([f1], f1, .error .stopIteration)
      | .ok (h :: rows) =>
        let hdr := augmentHeader h
        let f2 : FS := ⟨fs.input, some (utf8Encode (serDoc [hdr]))⟩
        let rest := writeLoop hdr [] rows replaceOk f2
        (f1 :: f2 :: rest.1, rest.2)

/-- A field is clean when it contains neither CR nor NUL; parsed input
fields and everything the transform adds are clean, which is what the
serialize-parse round trip needs. -/
def cleanField (f : CsvField) : Prop := '\r' ∉ f ∧ nulChar ∉ f

/-- All fields of a record are clean. -/
def cleanRow (r : CsvRow) : Prop := ∀ f ∈ r, cleanField f

/-- All records of a document are clean. -/
def cleanDoc (d : CsvDoc) : Prop := ∀ r ∈ d, cleanRow r

instance (f : CsvField) : Decidable (cleanField f) := by
  unfold cleanField; infer_instance

instance (r : CsvRow) : Decidable (cleanRow r) := by
  unfold cleanRow; infer_instance

instance (d : CsvDoc) : Decidable (cleanDoc d) := by
  unfold cleanDoc; infer_instance

example : runText (lc "Name,DescriptionEn\nA,B\n")
    = .ok (lc "Name,DescriptionEn,DescriptionJa\r\nA,B,\r\n") := by rfl

example : runText (lc "Name\n") = .ok (lc "Name,DescriptionJa\r\n") := by rfl

example : runText (lc "Name,DescriptionEn\nA\n") = .error .indexError := by rfl

example : runText [] = .error .stopIteration := by rfl

example : augmentHeader [lc "Name", lc "DescriptionEn"]
    = [lc "Name", lc "DescriptionEn", lc "DescriptionJa"] := by decide

example : augmentRow translations [lc "^else^", lc "x"]
    = some [lc "^else^", lc "x", lc "^if^タグの条件が偽（false）だった場合に書き出すブロックを開始します。"] := by
  decide

example : augmentRow translations [lc "nope", lc "x", lc "old", lc "extra"]
    = some [lc "nope", lc "x", [], lc "extra"] := by decide

example : augmentRow translations [lc "alone"] = none := by decide

/-- Serialization of one record with the LF terminator it carries after
universal-newline translation on re-reading. -/
def serRowLF (r : CsvRow) : List Char :=
  (if r = [[]] then ['"', '"'] else serFields r) ++ ['\n']

/-- Serialization of a document with LF terminators; this is what the next
run's reader sees after universal-newline translation of the writer's CRLF
output. -/
def serDocLF : CsvDoc → List Char
  | [] => []
  | r :: rs => serRowLF r ++ serDocLF rs

/-- All characters occurring in the fields of one record. -/
def rowChars : CsvRow → List Char
  | [] => []
  | f :: fs => f ++ rowChars fs

/-- All characters occurring in the fields of a document. -/
def docChars : CsvDoc → List Char
  | [] => []
  | r :: rs => rowChars r ++ docChars rs

/-! ## Row-level lemmas about the augment transform -/

theorem augmentRow_shape (t : List (CsvField × CsvField)) (a b : CsvField)
    (rest : List CsvField) :
    augmentRow t (a :: b :: rest) =
      some (match rest with
        | [] => [a, b, (lookup t a).getD []]
        | c :: rest' => a :: b :: (lookup t a).getD [] :: rest') := by
  cases rest with
  | nil => simp [augmentRow]
  | cons c rest' =>
    simp only [augmentRow, List.length_cons]
    have : ¬ (rest'.length + 1 + 1 + 1 < 3) := by omega
    simp [this, List.set]

theorem augmentRow_none (t : List (CsvField × CsvField)) (r : CsvRow)
    (h : r.length < 2) : augmentRow t r = none := by
  match r with
  | [] => rfl
  | [a] => rfl
  | a :: b :: rest => simp only [List.length_cons] at h; omega

theorem augmentRow_isSome (t : List (CsvField × CsvField)) (r : CsvRow)
    (h : 2 ≤ r.length) : (augmentRow t r).isSome := by
  match r with
  | [] => simp at h
  | [a] => simp at h
  | a :: b :: rest => simp [augmentRow_shape]

theorem augmentRow_get_ne_two (t : List (CsvField × CsvField)) (r r' : CsvRow)
    (h : augmentRow t r = some r') : ∀ i, i ≠ 2 → r'[i]? = r[i]? := by
  match r with
  | [] => simp [augmentRow] at h
  | [a] => simp [augmentRow] at h
  | a :: b :: rest =>
    rw [augmentRow_shape] at h
    cases rest with
    | nil =>
      simp only [Option.some.injEq] at h
      subst h
      intro i hi
      match i with
      | 0 => rfl
      | 1 => rfl
      | 2 => exact absurd rfl hi
      | n + 3 => simp
    | cons c rest' =>
      simp only [Option.some.injEq] at h
      subst h
      intro i hi
      match i with
      | 0 => rfl
      | 1 => rfl
      | 2 => exact absurd rfl hi
      | n + 3 => simp

theorem augmentRow_length (t : List (CsvField × CsvField)) (r r' : CsvRow)
    (h : augmentRow t r = some r') :
    r'.length = if r.length < 3 then 3 else r.length := by
  match r with
  | [] => simp [augmentRow] at h
  | [a] => simp [augmentRow] at h
  | a :: b :: rest =>
    rw [augmentRow_shape] at h
    cases rest with
    | nil =>
      simp only [Option.some.injEq] at h
      subst h
      simp
    | cons c rest' =>
      simp only [Option.some.injEq] at h
      subst h
      have : ¬ (rest'.length + 1 + 1 + 1 < 3) := by omega
      simp [this]

theorem augmentRows_length (t : List (CsvField × CsvField))
    (rows rows' : List CsvRow) (h : augmentRows t rows = some rows') :
    rows'.length = rows.length := by
  induction rows generalizing rows' with
  | nil => simp [augmentRows] at h; simp [← h]
  | cons r rs ih =>
    simp only [augmentRows] at h
    cases hr : augmentRow t r with
    | none => rw [hr] at h; simp at h
    | some r1 =>
      rw [hr] at h
      cases hrs : augmentRows t rs with
      | none => rw [hrs] at h; simp at h
      | some rs1 =>
        rw [hrs] at h
        simp only [Option.some.injEq] at h
        subst h
        simp [ih rs1 hrs]

theorem augmentRows_get (t : List (CsvField × CsvField))
    (rows rows' : List CsvRow) (h : augmentRows t rows = some rows') :
    ∀ (k i : Nat), i ≠ 2 →
      (rows[k]?.bind fun r : CsvRow => r[i]?)
        = (rows'[k]?.bind fun r : CsvRow => r[i]?) := by
  induction rows generalizing rows' with
  | nil => simp [augmentRows] at h; simp [← h]
  | cons r rs ih =>
    simp only [augmentRows] at h
    cases hr : augmentRow t r with
    | none => rw [hr] at h; simp at h
    | some r1 =>
      rw [hr] at h
      cases hrs : augmentRows t rs with
      | none => rw [hrs] at h; simp at h
      | some rs1 =>
        rw [hrs] at h
        simp only [Option.some.injEq] at h
        subst h
        intro k i hi
        match k with
        | 0 => simp [(augmentRow_get_ne_two t r r1 hr i hi).symm]
        | k + 1 => simpa using ih rs1 hrs k i hi

/-! ## Claim theorems: the in-memory transform -/

/-- C1: for every data record accepted by the augment loop, the output
record's field at index 2 is the translation-table value of the record's
first field when that field is a key, and the empty string otherwise,
in both the append and the overwrite branch. -/
theorem spec_c1 (t : List (CsvField × CsvField)) (r r' : CsvRow) (a : CsvField)
    (h : augmentRow t r = some r') (ha : r[0]? = some a) :
    (∀ v, lookup t a = some v → r'[2]? = some v) ∧
    (lookup t a = none → r'[2]? = some []) := by
  match r with
  | [] => simp [augmentRow] at h
  | [x] => simp [augmentRow] at h
  | x :: b :: rest =>
    have hx : x = a := by simpa using ha
    subst hx
    rw [augmentRow_shape] at h
    have h2 : r'[2]? = some ((lookup t x).getD []) := by
      cases rest with
      | nil => simp only [Option.some.injEq] at h; subst h; simp
      | cons c rest' => simp only [Option.some.injEq] at h; subst h; simp
    constructor
    · intro v hv; rw [h2, hv]; rfl
    · intro hv; rw [h2, hv]; rfl

theorem augmentRow_two_le (t : List (CsvField × CsvField)) (r r' : CsvRow)
    (h : augmentRow t r = some r') : 2 ≤ r.length := by
  match r with
  | [] => simp [augmentRow] at h
  | [a] => simp [augmentRow] at h
  | a :: b :: rest => simp

theorem augmentRows_none_of_short (t : List (CsvField × CsvField))
    (rows : List CsvRow) (h : ∃ r ∈ rows, r.length < 2) :
    augmentRows t rows = none := by
  induction rows with
  | nil => simp at h
  | cons r0 rs ih =>
    obtain ⟨r, hr, hlen⟩ := h
    rcases List.mem_cons.mp hr with heq | hmem
    · subst heq; simp [augmentRows, augmentRow_none t _ hlen]
    · simp only [augmentRows]
      cases haug : augmentRow t r0 with
      | none => rfl
      | some r1 => rw [ih ⟨r, hmem, hlen⟩]

theorem augmentRows_isSome_of_wide (t : List (CsvField × CsvField))
    (rows : List CsvRow) (h : ∀ r ∈ rows, 2 ≤ r.length) :
    (augmentRows t rows).isSome := by
  induction rows with
  | nil => simp [augmentRows]
  | cons r0 rs ih =>
    simp only [augmentRows]
    have h0 := augmentRow_isSome t r0 (h r0 (by simp))
    cases haug : augmentRow t r0 with
    | none => rw [haug] at h0; simp at h0
    | some r1 =>
      have hrs := ih (fun r hr => h r (by simp [hr]))
      cases hrs2 : augmentRows t rs with
      | none => rw [hrs2] at hrs; simp at hrs
      | some rs1 => simp

theorem augmentRows_pair (t : List (CsvField × CsvField))
    (rows rows' : List CsvRow) (h : augmentRows t rows = some rows') :
    ∀ (k : Nat) (r r' : CsvRow), rows[k]? = some r → rows'[k]? = some r' →
      augmentRow t r = some r' := by
  induction rows generalizing rows' with
  | nil => intro k r r' hk; simp at hk
  | cons r0 rs ih =>
    simp only [augmentRows] at h
    cases hr : augmentRow t r0 with
    | none => rw [hr] at h; simp at h
    | some r1 =>
      rw [hr] at h
      cases hrs : augmentRows t rs with
      | none => rw [hrs] at h; simp at h
      | some rs1 =>
        rw [hrs] at h
        simp only [Option.some.injEq] at h
        subst h
        intro k r r' hk hk'
        match k with
        | 0 =>
          simp only [List.getElem?_cons_zero, Option.some.injEq] at hk hk'
          subst hk; subst hk'; exact hr
        | k + 1 =>
          simp only [List.getElem?_cons_succ] at hk hk'
          exact ih rs1 hrs k r r' hk hk'

theorem augmentRows_min_three (t : List (CsvField × CsvField))
    (rows rows' : List CsvRow) (h : augmentRows t rows = some rows') :
    ∀ r' ∈ rows', 3 ≤ r'.length := by
  induction rows generalizing rows' with
  | nil =>
    simp only [augmentRows, Option.some.injEq] at h
    subst h
    simp
  | cons r0 rs ih =>
    simp only [augmentRows] at h
    cases hr : augmentRow t r0 with
    | none => rw [hr] at h; simp at h
    | some r1 =>
      rw [hr] at h
      cases hrs : augmentRows t rs with
      | none => rw [hrs] at h; simp at h
      | some rs1 =>
        rw [hrs] at h
        simp only [Option.some.injEq] at h
        subst h
        intro r' hr'
        rcases List.mem_cons.mp hr' with heq | hmem
        · subst heq
          have hlen := augmentRow_length t r0 r' hr
          have h2 := augmentRow_two_le t r0 r' hr
          rw [hlen]
          split <;> omega
        · exact ih rs1 hrs r' hmem

/-- C2: the transform preserves the number of records; every data record
keeps all fields except the one at index 2 unchanged (in particular fields
0, 1 and everything from index 3 on); existing header fields are also kept,
only the header's length can change. -/
theorem spec_c2 (t : List (CsvField × CsvField)) (d d' : CsvDoc)
    (h : augmentDoc t d = some d') :
    d'.length = d.length ∧
    (∀ (k i : Nat), 1 ≤ k → i ≠ 2 →
      (d[k]?.bind fun r : CsvRow => r[i]?)
        = (d'[k]?.bind fun r : CsvRow => r[i]?)) ∧
    (∀ (i : Nat) (hrow : CsvRow), d[0]? = some hrow → i < hrow.length →
      d'[0]?.bind (fun r : CsvRow => r[i]?) = hrow[i]?) := by
  cases d with
  | nil => simp [augmentDoc] at h
  | cons h₀ rows =>
    simp only [augmentDoc] at h
    cases hrs : augmentRows t rows with
    | none => rw [hrs] at h; simp at h
    | some rows' =>
      rw [hrs] at h
      simp only [Option.some.injEq] at h
      subst h
      refine ⟨by simp [augmentRows_length t rows rows' hrs], ?_, ?_⟩
      · intro k i hk hi
        match k with
        | 0 => omega
        | k + 1 => simpa using augmentRows_get t rows rows' hrs k i hi
      · intro i hrow hf hi
        simp only [List.getElem?_cons_zero, Option.some.injEq] at hf
        subst hf
        simp only [List.getElem?_cons_zero, Option.some_bind]
        unfold augmentHeader
        split
        · exact List.getElem?_append_left hi
        · rfl

/-- C2 witness at a concrete two-record document. -/
theorem spec_c2_witness :
    ([[lc "Name", lc "DescriptionJa"], [lc "A", lc "B", []]] : CsvDoc).length
        = ([[lc "Name"], [lc "A", lc "B"]] : CsvDoc).length ∧
    (([[lc "Name"], [lc "A", lc "B"]] : CsvDoc)[1]?.bind
        fun r : CsvRow => r[0]?)
      = (([[lc "Name", lc "DescriptionJa"], [lc "A", lc "B", []]] : CsvDoc)[1]?.bind
        fun r : CsvRow => r[0]?) :=
  ⟨(spec_c2 translations [[lc "Name"], [lc "A", lc "B"]]
      [[lc "Name", lc "DescriptionJa"], [lc "A", lc "B", []]] (by decide)).1,
   (spec_c2 translations [[lc "Name"], [lc "A", lc "B"]]
      [[lc "Name", lc "DescriptionJa"], [lc "A", lc "B", []]] (by decide)).2.1
      1 0 (by decide) (by decide)⟩

/-- C3: a header with fewer than 3 fields gains exactly the one label
DescriptionJa (length grows by one); a header with 3 or more fields is
returned unchanged. -/
theorem spec_c3 (h : CsvRow) :
    (h.length < 3 →
      augmentHeader h = h ++ [lc "DescriptionJa"]
        ∧ (augmentHeader h).length = h.length + 1) ∧
    (3 ≤ h.length → augmentHeader h = h) := by
  constructor
  · intro hlt
    simp [augmentHeader, hlt]
  · intro hge
    have hnot : ¬ h.length < 3 := by omega
    simp [augmentHeader, hnot]

/-- C3 witness: a two-field header gains DescriptionJa, a three-field header
is unchanged. -/
theorem spec_c3_witness :
    (augmentHeader [lc "Name", lc "DescriptionEn"]
        = [lc "Name", lc "DescriptionEn"] ++ [lc "DescriptionJa"]
      ∧ (augmentHeader [lc "Name", lc "DescriptionEn"]).length
          = ([lc "Name", lc "DescriptionEn"] : CsvRow).length + 1) ∧
    augmentHeader [lc "A", lc "B", lc "C"] = [lc "A", lc "B", lc "C"] :=
  ⟨(spec_c3 [lc "Name", lc "DescriptionEn"]).1 (by decide),
   (spec_c3 [lc "A", lc "B", lc "C"]).2 (by decide)⟩

/-- C8: the concrete example record with first field caret-root-caret keeps
its two fields and gains exactly the Japanese description from the table. -/
theorem spec_c8 :
    augmentRow translations
        [lc "^root^", lc "Writes the relative path to the site root."]
      = some [lc "^root^", lc "Writes the relative path to the site root.",
          lc "サイトのルートディレクトリへの相対パスを書き出します。画像やCSSへのパス指定に便利です。"] := by
  decide

/-- C9: the augment loop reads fields 0 and 1 of every data record, so a
record with fewer than 2 fields aborts the run (modelled as none), a record
with at least 2 fields never does, and likewise for whole row lists. -/
theorem spec_c9 (t : List (CsvField × CsvField)) (rows : List CsvRow) :
    (∀ r : CsvRow, r.length < 2 → augmentRow t r = none) ∧
    (∀ r : CsvRow, 2 ≤ r.length → (augmentRow t r).isSome) ∧
    ((∃ r ∈ rows, r.length < 2) → augmentRows t rows = none) ∧
    ((∀ r ∈ rows, 2 ≤ r.length) → (augmentRows t rows).isSome) :=
  ⟨augmentRow_none t, augmentRow_isSome t,
   augmentRows_none_of_short t rows, augmentRows_isSome_of_wide t rows⟩

/-- C9 witness: a one-field record fails, a two-field record succeeds, both
alone and inside a row list. -/
theorem spec_c9_witness :
    augmentRow translations [lc "A"] = none ∧
    (augmentRow translations [lc "A", lc "B"]).isSome ∧
    augmentRows translations [[lc "A"]] = none ∧
    (augmentRows translations [[lc "A", lc "B"]]).isSome :=
  ⟨(spec_c9 translations []).1 [lc "A"] (by decide),
   (spec_c9 translations []).2.1 [lc "A", lc "B"] (by decide),
   (spec_c9 translations [[lc "A"]]).2.2.1 ⟨[lc "A"], by simp, by decide⟩,
   (spec_c9 translations [[lc "A", lc "B"]]).2.2.2 (by decide)⟩

/-- C10 counterexample: on a document whose header is the single field Name
the run succeeds, yet the output header has only 2 fields, refuting the
claim that every record of a successful output has at least 3 fields. -/
theorem spec_c10_counterexample :
    augmentDoc translations [[lc "Name"]]
        = some [[lc "Name", lc "DescriptionJa"]] ∧
    ([lc "Name", lc "DescriptionJa"] : CsvRow).length < 3 := by
  decide

/-- C10 amended: on success every data record of the output has at least 3
fields, a data record with fewer than 3 input fields has exactly 3 output
fields and one with n of at least 3 keeps exactly n; the header instead
grows by exactly one field when it had fewer than 3 (so the output header
has at least 3 fields only when the input header had at least 2). -/
theorem spec_c10_amended (t : List (CsvField × CsvField)) (h₀ : CsvRow)
    (rows : List CsvRow) (d' : CsvDoc)
    (h : augmentDoc t (h₀ :: rows) = some d') :
    d'[0]? = some (augmentHeader h₀) ∧
    (augmentHeader h₀).length
      = (if h₀.length < 3 then h₀.length + 1 else h₀.length) ∧
    (∀ r' ∈ d'.tail, 3 ≤ r'.length) ∧
    (∀ (k : Nat) (r r' : CsvRow), rows[k]? = some r → d'[k + 1]? = some r' →
      r'.length = if r.length < 3 then 3 else r.length) := by
  simp only [augmentDoc] at h
  cases hrs : augmentRows t rows with
  | none => rw [hrs] at h; simp at h
  | some rows' =>
    rw [hrs] at h
    simp only [Option.some.injEq] at h
    subst h
    refine ⟨by simp, ?_, ?_, ?_⟩
    · unfold augmentHeader
      split <;> simp
    · simpa using augmentRows_min_three t rows rows' hrs
    · intro k r r' hk hk'
      simp only [List.getElem?_cons_succ] at hk'
      exact augmentRow_length t r r' (augmentRows_pair t rows rows' hrs k r r' hk hk')

/-- C10 amended witness at a concrete document with a short header, a short
data record and a long one. -/
theorem spec_c10_amended_witness :
    ([[lc "Name", lc "DescriptionJa"], [lc "A", lc "B", []],
        [lc "A", lc "B", [], lc "D"]] : CsvDoc)[0]?
      = some (augmentHeader [lc "Name"]) ∧
    (augmentHeader [lc "Name"]).length
      = (if ([lc "Name"] : CsvRow).length < 3
          then ([lc "Name"] : CsvRow).length + 1
          else ([lc "Name"] : CsvRow).length) ∧
    (∀ r' ∈ ([[lc "Name", lc "DescriptionJa"], [lc "A", lc "B", []],
        [lc "A", lc "B", [], lc "D"]] : CsvDoc).tail, 3 ≤ r'.length) ∧
    (∀ (k : Nat) (r r' : CsvRow),
      ([[lc "A", lc "B"], [lc "A", lc "B", lc "C", lc "D"]] : List CsvRow)[k]?
          = some r →
      ([[lc "Name", lc "DescriptionJa"], [lc "A", lc "B", []],
        [lc "A", lc "B", [], lc "D"]] : CsvDoc)[k + 1]? = some r' →
      r'.length = if r.length < 3 then 3 else r.length) :=
  spec_c10_amended translations [lc "Name"]
    [[lc "A", lc "B"], [lc "A", lc "B", lc "C", lc "D"]]
    [[lc "Name", lc "DescriptionJa"], [lc "A", lc "B", []],
      [lc "A", lc "B", [], lc "D"]] (by decide)

/-- C1 witness at a concrete record whose first field is not in the table. -/
theorem spec_c1_witness :
    (∀ v, lookup translations (lc "A") = some v
      → ([lc "A", lc "B", []] : CsvRow)[2]? = some v) ∧
    (lookup translations (lc "A") = none
      → ([lc "A", lc "B", []] : CsvRow)[2]? = some []) :=
  spec_c1 translations [lc "A", lc "B"] [lc "A", lc "B", []] (lc "A")
    (by decide) (by decide)

/-! ## Universal-newline translation lemmas -/

theorem uniNewlines_cons_ne (c : Char) (xs : List Char) (hc : c ≠ '\r') :
    uniNewlines (c :: xs) = c :: uniNewlines xs := by
  cases xs with
  | nil => simp [uniNewlines, hc]
  | cons c2 rest => simp [uniNewlines, hc]

theorem uniNewlines_mem (s : List Char) (c : Char) (h : c ∈ uniNewlines s) :
    c = '\n' ∨ (c ∈ s ∧ c ≠ '\r') := by
  induction s using uniNewlines.induct with
  | case1 => simp [uniNewlines] at h
  | case2 =>
    simp [uniNewlines] at h
    exact Or.inl h
  | case3 c0 hc =>
    simp [uniNewlines, hc] at h
    exact Or.inr ⟨by simp [h], by rw [h]; exact hc⟩
  | case4 rest ih =>
    rw [show uniNewlines ('\r' :: '\n' :: rest) = '\n' :: uniNewlines rest by
      simp [uniNewlines]] at h
    rcases List.mem_cons.mp h with h | h
    · exact Or.inl h
    · rcases ih h with h' | ⟨h1, h2⟩
      · exact Or.inl h'
      · exact Or.inr ⟨by simp [h1], h2⟩
  | case5 c2 rest hne ih =>
    rw [show uniNewlines ('\r' :: c2 :: rest) = '\n' :: uniNewlines (c2 :: rest) by
      simp [uniNewlines, hne]] at h
    rcases List.mem_cons.mp h with h | h
    · exact Or.inl h
    · rcases ih h with h' | ⟨h1, h2⟩
      · exact Or.inl h'
      · exact Or.inr ⟨by simp [h1], h2⟩
  | case6 c1 c2 rest hne ih =>
    rw [uniNewlines_cons_ne c1 (c2 :: rest) hne] at h
    rcases List.mem_cons.mp h with h | h
    · subst h
      exact Or.inr ⟨by simp, hne⟩
    · rcases ih h with h' | ⟨h1, h2⟩
      · exact Or.inl h'
      · exact Or.inr ⟨by simp [h1], h2⟩

theorem uniNewlines_no_cr (s : List Char) : '\r' ∉ uniNewlines s := by
  intro h
  rcases uniNewlines_mem s '\r' h with h' | ⟨_, h2⟩
  · exact absurd h' (by decide)
  · exact h2 rfl

theorem uniNewlines_append_clean (s t : List Char) (hs : '\r' ∉ s) :
    uniNewlines (s ++ t) = s ++ uniNewlines t := by
  induction s with
  | nil => rfl
  | cons c s' ih =>
    have hc : c ≠ '\r' := fun hcon => hs (by simp [hcon])
    rw [List.cons_append, uniNewlines_cons_ne c (s' ++ t) hc,
      ih (fun hcon => hs (by simp [hcon]))]
    simp

/-! ## Reader state machine consumption lemmas -/

theorem not_special (c : Char) (h : isSpecial c = false) :
    c ≠ ',' ∧ c ≠ '"' ∧ c ≠ '\r' ∧ c ≠ '\n' := by
  simp [isSpecial] at h
  exact ⟨h.1.1.1, h.1.1.2, h.1.2, h.2⟩

theorem csvRun_sr_to_sf (c : Char) (cs : List Char) (rec : CsvRow)
    (fld : CsvField) (hc : c ≠ '\n') :
    csvRun .startRecord rec fld (c :: cs) = csvRun .startField rec fld (c :: cs) := by
  simp [csvRun, hc]

theorem csvRun_inField_chars (f : List Char) :
    ∀ (rec : CsvRow) (fld : CsvField) (cs : List Char),
    (∀ c ∈ f, c ≠ '\n' ∧ c ≠ ',') →
    csvRun .inField rec fld (f ++ cs) = csvRun .inField rec (fld ++ f) cs := by
  induction f with
  | nil => intro rec fld cs _; simp
  | cons c f' ih =>
    intro rec fld cs h
    have hc := h c (by simp)
    rw [List.cons_append,
      show csvRun .inField rec fld (c :: (f' ++ cs))
          = csvRun .inField rec (fld ++ [c]) (f' ++ cs) by
        simp [csvRun, hc.1, hc.2],
      ih rec (fld ++ [c]) cs (fun c' hc' => h c' (by simp [hc']))]
    simp

theorem csvRun_inQuoted_esc (f : List Char) :
    ∀ (rec : CsvRow) (fld : CsvField) (cs : List Char),
    csvRun .inQuoted rec fld (escQuotes f ++ cs) = csvRun .inQuoted rec (fld ++ f) cs := by
  induction f with
  | nil => intro rec fld cs; simp [escQuotes]
  | cons c f' ih =>
    intro rec fld cs
    by_cases hc : c = '"'
    · subst hc
      rw [show escQuotes ('"' :: f') = '"' :: '"' :: escQuotes f' by simp [escQuotes]]
      rw [List.cons_append, List.cons_append,
        show csvRun .inQuoted rec fld ('"' :: ('"' :: (escQuotes f' ++ cs)))
            = csvRun .quoteQuoted rec fld ('"' :: (escQuotes f' ++ cs)) by
          simp [csvRun],
        show csvRun .quoteQuoted rec fld ('"' :: (escQuotes f' ++ cs))
            = csvRun .inQuoted rec (fld ++ ['"']) (escQuotes f' ++ cs) by
          simp [csvRun],
        ih rec (fld ++ ['"']) cs]
      simp
    · simp only [escQuotes, if_neg hc]
      rw [List.cons_append,
        show csvRun .inQuoted rec fld (c :: (escQuotes f' ++ cs))
            = csvRun .inQuoted rec (fld ++ [c]) (escQuotes f' ++ cs) by
          simp [csvRun, hc],
        ih rec (fld ++ [c]) cs]
      simp

theorem serField_chars (f : CsvField) (hq : f.any isSpecial = false) :
    ∀ c ∈ f, c ≠ ',' ∧ c ≠ '"' ∧ c ≠ '\r' ∧ c ≠ '\n' := by
  intro c hc
  apply not_special
  have := List.any_eq_false.mp hq c hc
  exact Bool.eq_false_iff.mpr this

theorem consumeFieldComma (f : CsvField) (rec : CsvRow) (cs : List Char) :
    csvRun .startField rec [] (serField f ++ ',' :: cs)
      = csvRun .startField (rec ++ [f]) [] cs := by
  by_cases hq : f.any isSpecial
  · rw [show serField f = '"' :: (escQuotes f ++ ['"']) by simp [serField, hq],
      List.cons_append,
      show csvRun .startField rec [] ('"' :: ((escQuotes f ++ ['"']) ++ ',' :: cs))
          = csvRun .inQuoted rec [] ((escQuotes f ++ ['"']) ++ ',' :: cs) by
        simp [csvRun],
      List.append_assoc,
      csvRun_inQuoted_esc f rec [] (['"'] ++ ',' :: cs),
      show ((['"'] : List Char) ++ ',' :: cs) = '"' :: ',' :: cs from rfl,
      show csvRun .inQuoted rec ([] ++ f) ('"' :: ',' :: cs)
          = csvRun .quoteQuoted rec ([] ++ f) (',' :: cs) by
        simp [csvRun],
      show csvRun .quoteQuoted rec ([] ++ f) (',' :: cs)
          = csvRun .startField (rec ++ [[] ++ f]) [] cs by
        simp [csvRun]]
    simp
  · have hq' : f.any isSpecial = false := Bool.eq_false_iff.mpr hq
    rw [show serField f = f by simp [serField, hq']]
    cases f with
    | nil => simp [csvRun]
    | cons c f' =>
      have hc := serField_chars (c :: f') hq' c (by simp)
      rw [List.cons_append,
        show csvRun .startField rec [] (c :: (f' ++ ',' :: cs))
            = csvRun .inField rec ([] ++ [c]) (f' ++ ',' :: cs) by
          simp [csvRun, hc.1, hc.2.1, hc.2.2.2],
        csvRun_inField_chars f' rec ([] ++ [c]) (',' :: cs)
          (fun c' hc' => ⟨(serField_chars (c :: f') hq' c' (by simp [hc'])).2.2.2,
            (serField_chars (c :: f') hq' c' (by simp [hc'])).1⟩),
        show csvRun .inField rec (([] ++ [c]) ++ f') (',' :: cs)
            = csvRun .startField (rec ++ [([] ++ [c]) ++ f']) [] cs by
          simp [csvRun]]
      simp

theorem consumeFieldNL (f : CsvField) (rec : CsvRow) (cs : List Char) :
    csvRun .startField rec [] (serField f ++ '\n' :: cs)
      = (rec ++ [f]) :: csvRun .startRecord [] [] cs := by
  by_cases hq : f.any isSpecial
  · rw [show serField f = '"' :: (escQuotes f ++ ['"']) by simp [serField, hq],
      List.cons_append,
      show csvRun .startField rec [] ('"' :: ((escQuotes f ++ ['"']) ++ '\n' :: cs))
          = csvRun .inQuoted rec [] ((escQuotes f ++ ['"']) ++ '\n' :: cs) by
        simp [csvRun],
      List.append_assoc,
      csvRun_inQuoted_esc f rec [] (['"'] ++ '\n' :: cs),
      show ((['"'] : List Char) ++ '\n' :: cs) = '"' :: '\n' :: cs from rfl,
      show csvRun .inQuoted rec ([] ++ f) ('"' :: '\n' :: cs)
          = csvRun .quoteQuoted rec ([] ++ f) ('\n' :: cs) by
        simp [csvRun],
      show csvRun .quoteQuoted rec ([] ++ f) ('\n' :: cs)
          = (rec ++ [[] ++ f]) :: csvRun .startRecord [] [] cs by
        simp [csvRun]]
    simp
  · have hq' : f.any isSpecial = false := Bool.eq_false_iff.mpr hq
    rw [show serField f = f by simp [serField, hq']]
    cases f with
    | nil => simp [csvRun]
    | cons c f' =>
      have hc := serField_chars (c :: f') hq' c (by simp)
      rw [List.cons_append,
        show csvRun .startField rec [] (c :: (f' ++ '\n' :: cs))
            = csvRun .inField rec ([] ++ [c]) (f' ++ '\n' :: cs) by
          simp [csvRun, hc.1, hc.2.1, hc.2.2.2],
        csvRun_inField_chars f' rec ([] ++ [c]) ('\n' :: cs)
          (fun c' hc' => ⟨(serField_chars (c :: f') hq' c' (by simp [hc'])).2.2.2,
            (serField_chars (c :: f') hq' c' (by simp [hc'])).1⟩),
        show csvRun .inField rec (([] ++ [c]) ++ f') ('\n' :: cs)
            = (rec ++ [([] ++ [c]) ++ f']) :: csvRun .startRecord [] [] cs by
          simp [csvRun]]
      simp

theorem consumeFields (fs : CsvRow) :
    ∀ (rec : CsvRow) (cs : List Char), fs ≠ [] →
    csvRun .startField rec [] (serFields fs ++ '\n' :: cs)
      = (rec ++ fs) :: csvRun .startRecord [] [] cs := by
  induction fs with
  | nil => intro rec cs h; exact absurd rfl h
  | cons f fs' ih =>
    intro rec cs _
    cases fs' with
    | nil =>
      rw [show serFields [f] = serField f by simp [serFields], consumeFieldNL]
    | cons g gs =>
      rw [show serFields (f :: g :: gs) = serField f ++ ',' :: serFields (g :: gs) by
          simp [serFields],
        List.append_assoc, List.cons_append,
        consumeFieldComma f rec (serFields (g :: gs) ++ '\n' :: cs),
        ih (rec ++ [f]) cs (by simp)]
      simp

theorem serFields_cons_shape (f : CsvField) (fs : List CsvField)
    (hne : ¬ (f = [] ∧ fs = [])) :
    ∃ (c : Char) (t : List Char), serFields (f :: fs) = c :: t ∧ c ≠ '\n' := by
  by_cases hq : f.any isSpecial
  · cases fs with
    | nil =>
      exact ⟨'"', escQuotes f ++ ['"'], by simp [serFields, serField, hq], by decide⟩
    | cons g gs =>
      exact ⟨'"', escQuotes f ++ '"' :: ',' :: serFields (g :: gs),
        by simp [serFields, serField, hq], by decide⟩
  · have hq' : f.any isSpecial = false := Bool.eq_false_iff.mpr hq
    cases f with
    | nil =>
      cases fs with
      | nil => exact absurd ⟨rfl, rfl⟩ hne
      | cons g gs =>
        exact ⟨',', serFields (g :: gs), by simp [serFields, serField], by decide⟩
    | cons c f' =>
      have hc := serField_chars (c :: f') hq' c (by simp)
      cases fs with
      | nil => exact ⟨c, f', by simp [serFields, serField, hq'], hc.2.2.2⟩
      | cons g gs =>
        exact ⟨c, f' ++ ',' :: serFields (g :: gs),
          by simp [serFields, serField, hq'], hc.2.2.2⟩

theorem consumeRow (r : CsvRow) (cs : List Char) :
    csvRun .startRecord [] [] (serRowLF r ++ cs) = r :: csvRun .startRecord [] [] cs := by
  by_cases hr : r = [[]]
  · subst hr
    rw [show serRowLF [[]] = ['"', '"', '\n'] by simp [serRowLF]]
    simp [csvRun]
  · rw [show serRowLF r = serFields r ++ ['\n'] by simp [serRowLF, hr]]
    cases r with
    | nil => simp [serFields, csvRun]
    | cons f fs =>
      have hne : ¬ (f = [] ∧ fs = []) := by
        intro ⟨h1, h2⟩
        exact hr (by rw [h1, h2])
      obtain ⟨c, t, heq, hc⟩ := serFields_cons_shape f fs hne
      rw [List.append_assoc, heq, List.cons_append, List.singleton_append,
        csvRun_sr_to_sf c (t ++ '\n' :: cs) [] [] hc, ← List.cons_append, ← heq,
        consumeFields (f :: fs) [] cs (by simp)]
      simp

theorem consumeDoc (rows : CsvDoc) :
    csvRun .startRecord [] [] (serDocLF rows) = rows := by
  induction rows with
  | nil => simp [serDocLF, csvRun]
  | cons r rs ih =>
    rw [show serDocLF (r :: rs) = serRowLF r ++ serDocLF rs by simp [serDocLF],
      consumeRow r (serDocLF rs), ih]

/-! ## Characters appearing in serialized output -/

theorem mem_escQuotes (f : CsvField) (c : Char) (h : c ∈ escQuotes f) : c ∈ f := by
  induction f with
  | nil => simp [escQuotes] at h
  | cons c0 f' ih =>
    by_cases hc0 : c0 = '"'
    · subst hc0
      rw [show escQuotes ('"' :: f') = '"' :: '"' :: escQuotes f' by simp [escQuotes]] at h
      rcases List.mem_cons.mp h with h | h
      · simp [h]
      · rcases List.mem_cons.mp h with h | h
        · simp [h]
        · simp [ih h]
    · simp only [escQuotes, if_neg hc0, List.mem_cons] at h
      rcases h with h | h
      · simp [h]
      · simp [ih h]

theorem mem_serField (f : CsvField) (c : Char) (h : c ∈ serField f) :
    c ∈ f ∨ c = '"' := by
  by_cases hq : f.any isSpecial
  · rw [show serField f = '"' :: (escQuotes f ++ ['"']) by simp [serField, hq]] at h
    rcases List.mem_cons.mp h with h | h
    · exact Or.inr h
    · rcases List.mem_append.mp h with h | h
      · exact Or.inl (mem_escQuotes f c h)
      · exact Or.inr (by simpa using h)
  · have hq' : f.any isSpecial = false := Bool.eq_false_iff.mpr hq
    rw [show serField f = f by simp [serField, hq']] at h
    exact Or.inl h

theorem mem_serFields (r : CsvRow) (c : Char) (h : c ∈ serFields r) :
    (∃ f ∈ r, c ∈ f) ∨ c = '"' ∨ c = ',' := by
  induction r using serFields.induct with
  | case1 => simp [serFields] at h
  | case2 f =>
    rw [show serFields [f] = serField f by simp [serFields]] at h
    rcases mem_serField f c h with h' | h'
    · exact Or.inl ⟨f, by simp, h'⟩
    · exact Or.inr (Or.inl h')
  | case3 f g gs ih =>
    rw [show serFields (f :: g :: gs) = serField f ++ ',' :: serFields (g :: gs) by
      simp [serFields]] at h
    simp only [List.mem_append, List.mem_cons] at h
    rcases h with h | h | h
    · rcases mem_serField f c h with h' | h'
      · exact Or.inl ⟨f, by simp, h'⟩
      · exact Or.inr (Or.inl h')
    · exact Or.inr (Or.inr h)
    · rcases ih h with ⟨f', hf', hc'⟩ | h'
      · exact Or.inl ⟨f', by simp [hf'], hc'⟩
      · exact Or.inr h'

theorem mem_serDoc (rows : CsvDoc) (c : Char) (h : c ∈ serDoc rows) :
    (∃ r ∈ rows, ∃ f ∈ r, c ∈ f) ∨ c = '"' ∨ c = ',' ∨ c = '\r' ∨ c = '\n' := by
  induction rows with
  | nil => simp [serDoc] at h
  | cons r rs ih =>
    rw [show serDoc (r :: rs) = serRow r ++ serDoc rs by simp [serDoc]] at h
    simp only [List.mem_append] at h
    rcases h with h | h
    · unfold serRow at h
      simp only [List.mem_append] at h
      rcases h with h | h
      · split at h
        · simp only [List.mem_cons] at h
          rcases h with h | h | h
          · exact Or.inr (Or.inl h)
          · exact Or.inr (Or.inl h)
          · simp at h
        · rcases mem_serFields r c h with ⟨f, hf, hc⟩ | h'
          · exact Or.inl ⟨r, by simp, f, hf, hc⟩
          · exact Or.inr (by tauto)
      · simp only [List.mem_cons] at h
        rcases h with h | h | h
        · exact Or.inr (Or.inr (Or.inr (Or.inl h)))
        · exact Or.inr (Or.inr (Or.inr (Or.inr h)))
        · simp at h
    · rcases ih h with ⟨r', hr', rest⟩ | h'
      · exact Or.inl ⟨r', by simp [hr'], rest⟩
      · exact Or.inr h'

theorem uniNewlines_serDoc (rows : CsvDoc)
    (hclean : ∀ r ∈ rows, ∀ f ∈ r, '\r' ∉ f) :
    uniNewlines (serDoc rows) = serDocLF rows := by
  induction rows with
  | nil => rfl
  | cons r rs ih =>
    have hbody : '\r' ∉ (if r = [[]] then (['"', '"'] : List Char) else serFields r) := by
      intro hmem
      split at hmem
      · simp at hmem
      · rcases mem_serFields r '\r' hmem with ⟨f, hf, hc⟩ | h' | h'
        · exact hclean r (by simp) f hf hc
        · exact absurd h' (by decide)
        · exact absurd h' (by decide)
    rw [show serDoc (r :: rs) = serRow r ++ serDoc rs by simp [serDoc]]
    unfold serRow
    rw [List.append_assoc, List.cons_append, List.singleton_append,
      uniNewlines_append_clean _ ('\r' :: '\n' :: serDoc rs) hbody,
      show uniNewlines ('\r' :: '\n' :: serDoc rs) = '\n' :: uniNewlines (serDoc rs) by
        simp [uniNewlines],
      ih (fun r' hr' => hclean r' (by simp [hr']))]
    rw [show serDocLF (r :: rs) = serRowLF r ++ serDocLF rs by simp [serDocLF]]
    unfold serRowLF
    simp

theorem parse_serDoc_roundtrip (rows : CsvDoc) (hclean : cleanDoc rows) :
    parseCSV (uniNewlines (serDoc rows)) = .ok rows := by
  unfold parseCSV
  rw [if_neg, uniNewlines_serDoc rows
      (fun r hr f hf => (hclean r hr f hf).1), consumeDoc]
  intro hmem
  rcases uniNewlines_mem _ _ hmem with h' | ⟨h1, _⟩
  · exact absurd h' (by decide)
  · rcases mem_serDoc rows nulChar h1 with ⟨r, hr, f, hf, hc⟩ | h'
    · exact (hclean r hr f hf).2 hc
    · rcases h' with h' | h' | h' | h' <;> exact absurd h' (by decide)

/-! ## UTF-8 codec round trip -/

theorem utf8Decode_cons2 (b b1 : Nat) (rest : List Nat) :
    utf8Decode (b :: b1 :: rest)
      = if b < 0x80 then (utf8Decode (b1 :: rest)).map (fun cs => Char.ofNat b :: cs)
        else if b < 0xC2 then none
        else if b < 0xE0 then
          (if utf8Cont b1 then
            (utf8Decode rest).map (fun cs =>
              Char.ofNat ((b - 0xC0) * 64 + (b1 - 0x80)) :: cs)
          else none)
        else if b < 0xF0 then
          (match rest with
          | b2 :: rest' =>
            if utf8Cont b1 && utf8Cont b2 && !(b == 0xE0 && b1 < 0xA0)
                && !(b == 0xED && 0xA0 ≤ b1) then
              (utf8Decode rest').map (fun cs =>
                Char.ofNat ((b - 0xE0) * 4096 + (b1 - 0x80) * 64 + (b2 - 0x80)) :: cs)
            else none
          | _ => none)
        else if b < 0xF5 then
          (match rest with
          | b2 :: b3 :: rest' =>
            if utf8Cont b1 && utf8Cont b2 && utf8Cont b3 && !(b == 0xF0 && b1 < 0x90)
                && !(b == 0xF4 && 0x90 ≤ b1) then
              (utf8Decode rest').map (fun cs =>
                Char.ofNat ((b - 0xF0) * 262144 + (b1 - 0x80) * 4096
                  + (b2 - 0x80) * 64 + (b3 - 0x80)) :: cs)
            else none
          | _ => none)
        else none := by
  cases rest with
  | nil => rfl
  | cons b2 r2 => cases r2 <;> rfl

theorem utf8Decode_cons3 (b b1 b2 : Nat) (rest : List Nat) :
    utf8Decode (b :: b1 :: b2 :: rest)
      = if b < 0x80 then (utf8Decode (b1 :: b2 :: rest)).map (fun cs => Char.ofNat b :: cs)
        else if b < 0xC2 then none
        else if b < 0xE0 then
          (if utf8Cont b1 then
            (utf8Decode (b2 :: rest)).map (fun cs =>
              Char.ofNat ((b - 0xC0) * 64 + (b1 - 0x80)) :: cs)
          else none)
        else if b < 0xF0 then
          (if utf8Cont b1 && utf8Cont b2 && !(b == 0xE0 && b1 < 0xA0)
              && !(b == 0xED && 0xA0 ≤ b1) then
            (utf8Decode rest).map (fun cs =>
              Char.ofNat ((b - 0xE0) * 4096 + (b1 - 0x80) * 64 + (b2 - 0x80)) :: cs)
          else none)
        else if b < 0xF5 then
          (match rest with
          | b3 :: rest' =>
            if utf8Cont b1 && utf8Cont b2 && utf8Cont b3 && !(b == 0xF0 && b1 < 0x90)
                && !(b == 0xF4 && 0x90 ≤ b1) then
              (utf8Decode rest').map (fun cs =>
                Char.ofNat ((b - 0xF0) * 262144 + (b1 - 0x80) * 4096
                  + (b2 - 0x80) * 64 + (b3 - 0x80)) :: cs)
            else none
          | _ => none)
        else none := by
  cases rest <;> rfl

theorem utf8Decode_cons4 (b b1 b2 b3 : Nat) (rest : List Nat) :
    utf8Decode (b :: b1 :: b2 :: b3 :: rest)
      = if b < 0x80 then
          (utf8Decode (b1 :: b2 :: b3 :: rest)).map (fun cs => Char.ofNat b :: cs)
        else if b < 0xC2 then none
        else if b < 0xE0 then
          (if utf8Cont b1 then
            (utf8Decode (b2 :: b3 :: rest)).map (fun cs =>
              Char.ofNat ((b - 0xC0) * 64 + (b1 - 0x80)) :: cs)
          else none)
        else if b < 0xF0 then
          (if utf8Cont b1 && utf8Cont b2 && !(b == 0xE0 && b1 < 0xA0)
              && !(b == 0xED && 0xA0 ≤ b1) then
            (utf8Decode (b3 :: rest)).map (fun cs =>
              Char.ofNat ((b - 0xE0) * 4096 + (b1 - 0x80) * 64 + (b2 - 0x80)) :: cs)
          else none)
        else if b < 0xF5 then
          (if utf8Cont b1 && utf8Cont b2 && utf8Cont b3 && !(b == 0xF0 && b1 < 0x90)
              && !(b == 0xF4 && 0x90 ≤ b1) then
            (utf8Decode rest).map (fun cs =>
              Char.ofNat ((b - 0xF0) * 262144 + (b1 - 0x80) * 4096
                + (b2 - 0x80) * 64 + (b3 - 0x80)) :: cs)
          else none)
        else none := rfl

theorem utf8Decode_single (b : Nat) (hb : b < 0x80) :
    utf8Decode [b] = some [Char.ofNat b] := by
  rw [show utf8Decode [b]
      = if b < 0x80 then some [Char.ofNat b]
        else if b < 0xC2 then none
        else if b < 0xE0 then none
        else if b < 0xF0 then none
        else if b < 0xF5 then none
        else none from rfl, if_pos hb]

theorem utf8Decode_cons1 (b : Nat) (rest : List Nat) (hb : b < 0x80) :
    utf8Decode (b :: rest) = (utf8Decode rest).map (fun cs => Char.ofNat b :: cs) := by
  cases rest with
  | nil => rw [utf8Decode_single b hb]; rfl
  | cons b1 r1 => rw [utf8Decode_cons2, if_pos hb]

theorem charOfNat_eq (c : Char) (n : Nat) (h : c.toNat = n) : Char.ofNat n = c := by
  rw [← h, Char.ofNat_toNat]

theorem utf8_decode_encode_char (c : Char) (bs : List Nat) :
    utf8Decode (utf8EncodeChar c ++ bs) = (utf8Decode bs).map (fun cs => c :: cs) := by
  have hval : c.toNat < 0xD800 ∨ (0xDFFF < c.toNat ∧ c.toNat < 0x110000) := c.valid
  by_cases h1 : c.toNat < 0x80
  · rw [show utf8EncodeChar c = [c.toNat] by simp [utf8EncodeChar, h1],
      List.singleton_append, utf8Decode_cons1 c.toNat bs h1, Char.ofNat_toNat]
  · by_cases h2 : c.toNat < 0x800
    · rw [show utf8EncodeChar c = [0xC0 + c.toNat / 64, 0x80 + c.toNat % 64] by
        simp [utf8EncodeChar, h1, h2],
        List.cons_append, List.cons_append, List.nil_append, utf8Decode_cons2,
        if_neg (by omega), if_neg (by omega), if_pos (by omega),
        if_pos (show utf8Cont (0x80 + c.toNat % 64) = true by
          simp only [utf8Cont, Bool.and_eq_true, decide_eq_true_eq]
          omega),
        charOfNat_eq c _ (by omega)]
    · by_cases h3 : c.toNat < 0x10000
      · rw [show utf8EncodeChar c
            = [0xE0 + c.toNat / 4096, 0x80 + c.toNat / 64 % 64, 0x80 + c.toNat % 64] by
          simp [utf8EncodeChar, h1, h2, h3],
          List.cons_append, List.cons_append, List.cons_append, List.nil_append,
          utf8Decode_cons3,
          if_neg (by omega), if_neg (by omega), if_neg (by omega), if_pos (by omega),
          if_pos (show (utf8Cont (0x80 + c.toNat / 64 % 64)
              && utf8Cont (0x80 + c.toNat % 64)
              && !((0xE0 + c.toNat / 4096) == 0xE0 && (0x80 + c.toNat / 64 % 64) < 0xA0)
              && !((0xE0 + c.toNat / 4096) == 0xED && 0xA0 ≤ (0x80 + c.toNat / 64 % 64)))
              = true by
            simp only [utf8Cont, Bool.and_eq_true, decide_eq_true_eq, Bool.not_eq_true',
              Bool.and_eq_false_iff, decide_eq_false_iff_not, beq_iff_eq, Nat.not_le,
              Nat.not_lt, beq_eq_false_iff_ne, ne_eq]
            omega),
          charOfNat_eq c _ (by omega)]
      · rw [show utf8EncodeChar c
            = [0xF0 + c.toNat / 262144, 0x80 + c.toNat / 4096 % 64,
               0x80 + c.toNat / 64 % 64, 0x80 + c.toNat % 64] by
          simp [utf8EncodeChar, h1, h2, h3],
          List.cons_append, List.cons_append, List.cons_append, List.cons_append,
          List.nil_append, utf8Decode_cons4,
          if_neg (by omega), if_neg (by omega), if_neg (by omega), if_neg (by omega),
          if_pos (by omega),
          if_pos (show (utf8Cont (0x80 + c.toNat / 4096 % 64)
              && utf8Cont (0x80 + c.toNat / 64 % 64)
              && utf8Cont (0x80 + c.toNat % 64)
              && !((0xF0 + c.toNat / 262144) == 0xF0 && (0x80 + c.toNat / 4096 % 64) < 0x90)
              && !((0xF0 + c.toNat / 262144) == 0xF4 && 0x90 ≤ (0x80 + c.toNat / 4096 % 64)))
              = true by
            simp only [utf8Cont, Bool.and_eq_true, decide_eq_true_eq, Bool.not_eq_true',
              Bool.and_eq_false_iff, decide_eq_false_iff_not, beq_iff_eq, Nat.not_le,
              Nat.not_lt, beq_eq_false_iff_ne, ne_eq]
            omega),
          charOfNat_eq c _ (by omega)]

theorem utf8_decode_encode (cs : List Char) : utf8Decode (utf8Encode cs) = some cs := by
  induction cs with
  | nil => rfl
  | cons c cs2 ih =>
    rw [show utf8Encode (c :: cs2) = utf8EncodeChar c ++ utf8Encode cs2 by simp [utf8Encode],
      utf8_decode_encode_char, ih]
    rfl

/-! ## Provenance of parsed characters -/

theorem rowChars_append (r1 r2 : CsvRow) :
    rowChars (r1 ++ r2) = rowChars r1 ++ rowChars r2 := by
  induction r1 with
  | nil => rfl
  | cons f fs ih => simp [rowChars, ih]

theorem mem_rowChars (r : CsvRow) (c : Char) : c ∈ rowChars r ↔ ∃ f ∈ r, c ∈ f := by
  induction r with
  | nil => simp [rowChars]
  | cons f fs ih => simp [rowChars, List.mem_append, ih]

theorem mem_docChars (d : CsvDoc) (c : Char) :
    c ∈ docChars d ↔ ∃ r ∈ d, c ∈ rowChars r := by
  induction d with
  | nil => simp [docChars]
  | cons r rs ih => simp [docChars, List.mem_append, ih]

theorem csvRun_chars (cs : List Char) :
    ∀ (st : PState) (rec : CsvRow) (fld : CsvField) (c : Char),
    c ∈ docChars (csvRun st rec fld cs) → c ∈ cs ∨ c ∈ fld ∨ c ∈ rowChars rec := by
  induction cs with
  | nil =>
    have base : ∀ (rec : CsvRow) (fld : CsvField) (c : Char),
        c ∈ docChars [rec ++ [fld]] → c ∈ fld ∨ c ∈ rowChars rec := by
      intro rec fld c hc
      simp only [docChars, List.append_nil, rowChars_append] at hc
      rcases List.mem_append.mp hc with h | h
      · exact Or.inr h
      · simp only [rowChars, List.append_nil] at h
        exact Or.inl h
    intro st rec fld c hc
    cases st with
    | startRecord => simp [csvRun, docChars] at hc
    | startField => exact Or.inr (base rec fld c (by simpa [csvRun] using hc))
    | inField => exact Or.inr (base rec fld c (by simpa [csvRun] using hc))
    | inQuoted => exact Or.inr (base rec fld c (by simpa [csvRun] using hc))
    | quoteQuoted => exact Or.inr (base rec fld c (by simpa [csvRun] using hc))
  | cons c0 cs' ih =>
    intro st rec fld c
    have hemit : ∀ (R : CsvRow), c ∈ docChars (R :: csvRun .startRecord [] [] cs') →
        c ∈ rowChars R ∨ c ∈ cs' := by
      intro R hmem
      simp only [docChars] at hmem
      rcases List.mem_append.mp hmem with h | h
      · exact Or.inl h
      · rcases ih .startRecord [] [] c h with h' | h' | h'
        · exact Or.inr h'
        · simp at h'
        · simp [rowChars] at h'
    have hsavefld : ∀ h : c ∈ rowChars (rec ++ [fld]), c ∈ fld ∨ c ∈ rowChars rec := by
      intro h
      rw [rowChars_append] at h
      rcases List.mem_append.mp h with h' | h'
      · exact Or.inr h'
      · simp only [rowChars, List.append_nil] at h'
        exact Or.inl h'
    have hcont : ∀ (rec' : CsvRow) (fld' : CsvField) (st' : PState),
        c ∈ docChars (csvRun st' rec' fld' cs') →
        c ∈ cs' ∨ c ∈ fld' ∨ c ∈ rowChars rec' := fun rec' fld' st' h => ih st' rec' fld' c h
    intro hc
    cases st with
    | startRecord =>
      by_cases h1 : c0 = '\n'
      · subst h1
        rw [show csvRun .startRecord rec fld ('\n' :: cs')
            = [] :: csvRun .startRecord [] [] cs' by simp [csvRun]] at hc
        rcases hemit [] hc with h | h
        · simp [rowChars] at h
        · exact Or.inl (by simp [h])
      · by_cases h2 : c0 = ','
        · subst h2
          rw [show csvRun .startRecord rec fld (',' :: cs')
              = csvRun .startField (rec ++ [fld]) [] cs' by simp [csvRun]] at hc
          rcases hcont _ _ _ hc with h | h | h
          · exact Or.inl (by simp [h])
          · simp at h
          · rcases hsavefld h with h' | h'
            · exact Or.inr (Or.inl h')
            · exact Or.inr (Or.inr h')
        · by_cases h3 : c0 = '"'
          · subst h3
            rw [show csvRun .startRecord rec fld ('"' :: cs')
                = csvRun .inQuoted rec fld cs' by simp [csvRun]] at hc
            rcases hcont _ _ _ hc with h | h | h
            · exact Or.inl (by simp [h])
            · exact Or.inr (Or.inl h)
            · exact Or.inr (Or.inr h)
          · rw [show csvRun .startRecord rec fld (c0 :: cs')
                = csvRun .inField rec (fld ++ [c0]) cs' by simp [csvRun, h1, h2, h3]] at hc
            rcases hcont _ _ _ hc with h | h | h
            · exact Or.inl (by simp [h])
            · rcases List.mem_append.mp h with h' | h'
              · exact Or.inr (Or.inl h')
              · exact Or.inl (by simp at h'; simp [h'])
            · exact Or.inr (Or.inr h)
    | startField =>
      by_cases h1 : c0 = '\n'
      · subst h1
        rw [show csvRun .startField rec fld ('\n' :: cs')
            = (rec ++ [fld]) :: csvRun .startRecord [] [] cs' by simp [csvRun]] at hc
        rcases hemit _ hc with h | h
        · rcases hsavefld h with h' | h'
          · exact Or.inr (Or.inl h')
          · exact Or.inr (Or.inr h')
        · exact Or.inl (by simp [h])
      · by_cases h2 : c0 = ','
        · subst h2
          rw [show csvRun .startField rec fld (',' :: cs')
              = csvRun .startField (rec ++ [fld]) [] cs' by simp [csvRun]] at hc
          rcases hcont _ _ _ hc with h | h | h
          · exact Or.inl (by simp [h])
          · simp at h
          · rcases hsavefld h with h' | h'
            · exact Or.inr (Or.inl h')
            · exact Or.inr (Or.inr h')
        · by_cases h3 : c0 = '"'
          · subst h3
            rw [show csvRun .startField rec fld ('"' :: cs')
                = csvRun .inQuoted rec fld cs' by simp [csvRun]] at hc
            rcases hcont _ _ _ hc with h | h | h
            · exact Or.inl (by simp [h])
            · exact Or.inr (Or.inl h)
            · exact Or.inr (Or.inr h)
          · rw [show csvRun .startField rec fld (c0 :: cs')
                = csvRun .inField rec (fld ++ [c0]) cs' by simp [csvRun, h1, h2, h3]] at hc
            rcases hcont _ _ _ hc with h | h | h
            · exact Or.inl (by simp [h])
            · rcases List.mem_append.mp h with h' | h'
              · exact Or.inr (Or.inl h')
              · exact Or.inl (by simp at h'; simp [h'])
            · exact Or.inr (Or.inr h)
    | inField =>
      by_cases h1 : c0 = '\n'
      · subst h1
        rw [show csvRun .inField rec fld ('\n' :: cs')
            = (rec ++ [fld]) :: csvRun .startRecord [] [] cs' by simp [csvRun]] at hc
        rcases hemit _ hc with h | h
        · rcases hsavefld h with h' | h'
          · exact Or.inr (Or.inl h')
          · exact Or.inr (Or.inr h')
        · exact Or.inl (by simp [h])
      · by_cases h2 : c0 = ','
        · subst h2
          rw [show csvRun .inField rec fld (',' :: cs')
              = csvRun .startField (rec ++ [fld]) [] cs' by simp [csvRun]] at hc
          rcases hcont _ _ _ hc with h | h | h
          · exact Or.inl (by simp [h])
          · simp at h
          · rcases hsavefld h with h' | h'
            · exact Or.inr (Or.inl h')
            · exact Or.inr (Or.inr h')
        · rw [show csvRun .inField rec fld (c0 :: cs')
              = csvRun .inField rec (fld ++ [c0]) cs' by simp [csvRun, h1, h2]] at hc
          rcases hcont _ _ _ hc with h | h | h
          · exact Or.inl (by simp [h])
          · rcases List.mem_append.mp h with h' | h'
            · exact Or.inr (Or.inl h')
            · exact Or.inl (by simp at h'; simp [h'])
          · exact Or.inr (Or.inr h)
    | inQuoted =>
      by_cases h1 : c0 = '"'
      · subst h1
        rw [show csvRun .inQuoted rec fld ('"' :: cs')
            = csvRun .quoteQuoted rec fld cs' by simp [csvRun]] at hc
        rcases hcont _ _ _ hc with h | h | h
        · exact Or.inl (by simp [h])
        · exact Or.inr (Or.inl h)
        · exact Or.inr (Or.inr h)
      · rw [show csvRun .inQuoted rec fld (c0 :: cs')
            = csvRun .inQuoted rec (fld ++ [c0]) cs' by simp [csvRun, h1]] at hc
        rcases hcont _ _ _ hc with h | h | h
        · exact Or.inl (by simp [h])
        · rcases List.mem_append.mp h with h' | h'
          · exact Or.inr (Or.inl h')
          · exact Or.inl (by simp at h'; simp [h'])
        · exact Or.inr (Or.inr h)
    | quoteQuoted =>
      by_cases h1 : c0 = '"'
      · subst h1
        rw [show csvRun .quoteQuoted rec fld ('"' :: cs')
            = csvRun .inQuoted rec (fld ++ ['"']) cs' by simp [csvRun]] at hc
        rcases hcont _ _ _ hc with h | h | h
        · exact Or.inl (by simp [h])
        · rcases List.mem_append.mp h with h' | h'
          · exact Or.inr (Or.inl h')
          · exact Or.inl (by simp at h'; simp [h'])
        · exact Or.inr (Or.inr h)
      · by_cases h2 : c0 = ','
        · subst h2
          rw [show csvRun .quoteQuoted rec fld (',' :: cs')
              = csvRun .startField (rec ++ [fld]) [] cs' by simp [csvRun]] at hc
          rcases hcont _ _ _ hc with h | h | h
          · exact Or.inl (by simp [h])
          · simp at h
          · rcases hsavefld h with h' | h'
            · exact Or.inr (Or.inl h')
            · exact Or.inr (Or.inr h')
        · by_cases h3 : c0 = '\n'
          · subst h3
            rw [show csvRun .quoteQuoted rec fld ('\n' :: cs')
                = (rec ++ [fld]) :: csvRun .startRecord [] [] cs' by simp [csvRun]] at hc
            rcases hemit _ hc with h | h
            · rcases hsavefld h with h' | h'
              · exact Or.inr (Or.inl h')
              · exact Or.inr (Or.inr h')
            · exact Or.inl (by simp [h])
          · rw [show csvRun .quoteQuoted rec fld (c0 :: cs')
                = csvRun .inField rec (fld ++ [c0]) cs' by simp [csvRun, h1, h2, h3]] at hc
            rcases hcont _ _ _ hc with h | h | h
            · exact Or.inl (by simp [h])
            · rcases List.mem_append.mp h with h' | h'
              · exact Or.inr (Or.inl h')
              · exact Or.inl (by simp at h'; simp [h'])
            · exact Or.inr (Or.inr h)

theorem parseCSV_clean (cs : List Char) (d : List CsvRow)
    (h : parseCSV (uniNewlines cs) = .ok d) : cleanDoc d := by
  unfold parseCSV at h
  split at h
  · exact absurd h (by simp)
  · rename_i hnul
    simp only [Except.ok.injEq] at h
    subst h
    intro r hr f hf
    constructor
    · intro hcr
      have hmem : '\r' ∈ docChars (csvRun .startRecord [] [] (uniNewlines cs)) :=
        (mem_docChars _ '\r').mpr ⟨r, hr, (mem_rowChars r '\r').mpr ⟨f, hf, hcr⟩⟩
      rcases csvRun_chars (uniNewlines cs) .startRecord [] [] '\r' hmem with h' | h' | h'
      · exact uniNewlines_no_cr cs h'
      · simp at h'
      · simp [rowChars] at h'
    · intro hnl
      have hmem : nulChar ∈ docChars (csvRun .startRecord [] [] (uniNewlines cs)) :=
        (mem_docChars _ nulChar).mpr ⟨r, hr, (mem_rowChars r nulChar).mpr ⟨f, hf, hnl⟩⟩
      rcases csvRun_chars (uniNewlines cs) .startRecord [] [] nulChar hmem with h' | h' | h'
      · exact hnul h'
      · simp at h'
      · simp [rowChars] at h'

/-! ## Idempotence and cleanliness of the augment transform -/

theorem augmentRow_idem (t : List (CsvField × CsvField)) (r r' : CsvRow)
    (h : augmentRow t r = some r') : augmentRow t r' = some r' := by
  match r with
  | [] => simp [augmentRow] at h
  | [a] => simp [augmentRow] at h
  | a :: b :: rest =>
    rw [augmentRow_shape] at h
    cases rest with
    | nil =>
      simp only [Option.some.injEq] at h
      subst h
      rw [augmentRow_shape]
    | cons cc rest' =>
      simp only [Option.some.injEq] at h
      subst h
      rw [augmentRow_shape]

theorem augmentRows_idem (t : List (CsvField × CsvField))
    (rows rows' : List CsvRow) (h : augmentRows t rows = some rows') :
    augmentRows t rows' = some rows' := by
  induction rows generalizing rows' with
  | nil =>
    simp only [augmentRows, Option.some.injEq] at h
    subst h
    rfl
  | cons r rs ih =>
    simp only [augmentRows] at h
    cases hr : augmentRow t r with
    | none => rw [hr] at h; simp at h
    | some r1 =>
      rw [hr] at h
      cases hrs : augmentRows t rs with
      | none => rw [hrs] at h; simp at h
      | some rs1 =>
        rw [hrs] at h
        simp only [Option.some.injEq] at h
        subst h
        simp only [augmentRows, augmentRow_idem t r r1 hr, ih rs1 hrs]

theorem augmentHeader_idem (h : CsvRow) (hlen : 2 ≤ h.length) :
    augmentHeader (augmentHeader h) = augmentHeader h := by
  unfold augmentHeader
  by_cases h3 : h.length < 3
  · rw [if_pos h3, if_neg (by simp; omega)]
  · rw [if_neg h3, if_neg h3]

theorem augmentDoc_idem (t : List (CsvField × CsvField)) (h₀ : CsvRow)
    (rows : List CsvRow) (d' : CsvDoc) (hlen : 2 ≤ h₀.length)
    (h : augmentDoc t (h₀ :: rows) = some d') : augmentDoc t d' = some d' := by
  simp only [augmentDoc] at h
  cases hrs : augmentRows t rows with
  | none => rw [hrs] at h; simp at h
  | some rows' =>
    rw [hrs] at h
    simp only [Option.some.injEq] at h
    subst h
    simp only [augmentDoc, augmentRows_idem t rows rows' hrs,
      augmentHeader_idem h₀ hlen]

theorem lookup_mem (t : List (CsvField × CsvField)) (k v : CsvField)
    (h : lookup t k = some v) : ∃ p ∈ t, p.2 = v := by
  induction t with
  | nil => simp [lookup] at h
  | cons p rest ih =>
    obtain ⟨k', v'⟩ := p
    simp only [lookup] at h
    by_cases hk : k = k'
    · rw [if_pos hk] at h
      simp only [Option.some.injEq] at h
      exact ⟨(k', v'), by simp, h⟩
    · rw [if_neg hk] at h
      obtain ⟨p, hp, hpv⟩ := ih h
      exact ⟨p, by simp [hp], hpv⟩

theorem cleanField_getD (t : List (CsvField × CsvField)) (k : CsvField)
    (ht : ∀ p ∈ t, cleanField p.2) : cleanField ((lookup t k).getD []) := by
  cases hl : lookup t k with
  | none => exact ⟨by simp, by simp⟩
  | some v =>
    obtain ⟨p, hp, hpv⟩ := lookup_mem t k v hl
    simpa [hpv] using ht p hp

theorem augmentRow_clean (t : List (CsvField × CsvField)) (r r' : CsvRow)
    (ht : ∀ p ∈ t, cleanField p.2) (hr : cleanRow r)
    (h : augmentRow t r = some r') : cleanRow r' := by
  match r with
  | [] => simp [augmentRow] at h
  | [a] => simp [augmentRow] at h
  | a :: b :: rest =>
    rw [augmentRow_shape] at h
    cases rest with
    | nil =>
      simp only [Option.some.injEq] at h
      subst h
      intro f hf
      rcases List.mem_cons.mp hf with heq | hf'
      · exact heq ▸ hr a (by simp)
      · rcases List.mem_cons.mp hf' with heq | hf''
        · exact heq ▸ hr b (by simp)
        · rcases List.mem_cons.mp hf'' with heq | hf3
          · exact heq ▸ cleanField_getD t a ht
          · simp at hf3
    | cons cc rest' =>
      simp only [Option.some.injEq] at h
      subst h
      intro f hf
      rcases List.mem_cons.mp hf with heq | hf'
      · exact heq ▸ hr a (by simp)
      · rcases List.mem_cons.mp hf' with heq | hf''
        · exact heq ▸ hr b (by simp)
        · rcases List.mem_cons.mp hf'' with heq | hf3
          · exact heq ▸ cleanField_getD t a ht
          · exact hr f (by simp [hf3])

theorem augmentRows_clean (t : List (CsvField × CsvField))
    (rows rows' : List CsvRow) (ht : ∀ p ∈ t, cleanField p.2)
    (hc : ∀ r ∈ rows, cleanRow r) (h : augmentRows t rows = some rows') :
    ∀ r ∈ rows', cleanRow r := by
  induction rows generalizing rows' with
  | nil =>
    simp only [augmentRows, Option.some.injEq] at h
    subst h
    simp
  | cons r rs ih =>
    simp only [augmentRows] at h
    cases hr : augmentRow t r with
    | none => rw [hr] at h; simp at h
    | some r1 =>
      rw [hr] at h
      cases hrs : augmentRows t rs with
      | none => rw [hrs] at h; simp at h
      | some rs1 =>
        rw [hrs] at h
        simp only [Option.some.injEq] at h
        subst h
        intro r' hr'
        rcases List.mem_cons.mp hr' with heq | hmem
        · exact heq ▸ augmentRow_clean t r r1 ht (hc r (by simp)) hr
        · exact ih rs1 (fun r hm => hc r (by simp [hm])) hrs r' hmem

theorem translations_clean : ∀ p ∈ translations, cleanField p.2 := by decide

theorem augmentHeader_clean (h : CsvRow) (hc : cleanRow h) :
    cleanRow (augmentHeader h) := by
  unfold augmentHeader
  split
  · intro f hf
    rcases List.mem_append.mp hf with h' | h'
    · exact hc f h'
    · rw [List.mem_singleton.mp h']
      exact ⟨by decide, by decide⟩
  · exact hc

theorem augmentDoc_clean (t : List (CsvField × CsvField)) (d d' : CsvDoc)
    (ht : ∀ p ∈ t, cleanField p.2) (hd : cleanDoc d)
    (h : augmentDoc t d = some d') : cleanDoc d' := by
  cases d with
  | nil => simp [augmentDoc] at h
  | cons h₀ rows =>
    simp only [augmentDoc] at h
    cases hrs : augmentRows t rows with
    | none => rw [hrs] at h; simp at h
    | some rows' =>
      rw [hrs] at h
      simp only [Option.some.injEq] at h
      subst h
      intro r hr
      rcases List.mem_cons.mp hr with heq | hmem
      · exact heq ▸ augmentHeader_clean h₀ (hd h₀ (by simp))
      · exact augmentRows_clean t rows rows' ht
          (fun r' hr' => hd r' (by simp [hr'])) hrs r hmem

/-! ## Claim theorems: idempotence, load errors, dialect, atomicity -/

/-- C4 counterexample: on the file containing the single line Name, one run
succeeds, but a second run on its output appends the DescriptionJa label a
second time, so the transform is not idempotent on all inputs. -/
theorem spec_c4_counterexample :
    runFile (utf8Encode (lc "Name\n"))
        = .ok (utf8Encode (lc "Name,DescriptionJa\r\n")) ∧
    runFile (utf8Encode (lc "Name,DescriptionJa\r\n"))
        = .ok (utf8Encode (lc "Name,DescriptionJa,DescriptionJa\r\n")) ∧
    utf8Encode (lc "Name,DescriptionJa\r\n")
        ≠ utf8Encode (lc "Name,DescriptionJa,DescriptionJa\r\n") :=
  ⟨rfl, rfl, by decide⟩

/-- C4 amended: for every input file whose header record has at least 2
fields and on which one run succeeds, running the whole transform a second
time on the first run's output yields byte-identical contents. -/
theorem spec_c4_amended (b out : List Nat) (cs : List Char) (h₀ : CsvRow)
    (rows : List CsvRow)
    (hdec : utf8Decode b = some cs)
    (hparse : parseCSV (uniNewlines cs) = .ok (h₀ :: rows))
    (hlen : 2 ≤ h₀.length)
    (hrun : runFile b = .ok out) :
    runFile out = .ok out := by
  unfold runFile at hrun
  simp only [hdec] at hrun
  unfold runText at hrun
  simp only [hparse] at hrun
  cases haug : augmentRows translations rows with
  | none => simp [haug, Except.map] at hrun
  | some rows' =>
    simp only [haug, Except.map, Except.ok.injEq] at hrun
    subst hrun
    have hdoc : augmentDoc translations (h₀ :: rows)
        = some (augmentHeader h₀ :: rows') := by
      simp [augmentDoc, haug]
    have hcleanIn : cleanDoc (h₀ :: rows) := parseCSV_clean cs _ hparse
    have hcleanOut : cleanDoc (augmentHeader h₀ :: rows') :=
      augmentDoc_clean translations (h₀ :: rows) _ translations_clean hcleanIn hdoc
    unfold runFile
    simp only [utf8_decode_encode]
    unfold runText
    simp only [parse_serDoc_roundtrip _ hcleanOut]
    have hidem : augmentDoc translations (augmentHeader h₀ :: rows')
        = some (augmentHeader h₀ :: rows') :=
      augmentDoc_idem translations h₀ rows _ hlen hdoc
    simp only [augmentDoc] at hidem
    cases haug2 : augmentRows translations rows' with
    | none => simp only [haug2] at hidem; simp at hidem
    | some rows2 =>
      simp only [haug2, Option.some.injEq, List.cons.injEq] at hidem
      simp only [haug2, hidem.1, hidem.2, Except.map]

/-- C4 amended witness: a two-column input round-trips to a fixed point. -/
theorem spec_c4_amended_witness :
    runFile (utf8Encode (lc "Name,DescriptionEn,DescriptionJa\r\nA,B,\r\n"))
      = .ok (utf8Encode (lc "Name,DescriptionEn,DescriptionJa\r\nA,B,\r\n")) :=
  spec_c4_amended (utf8Encode (lc "Name,DescriptionEn\nA,B\n"))
    (utf8Encode (lc "Name,DescriptionEn,DescriptionJa\r\nA,B,\r\n"))
    (lc "Name,DescriptionEn\nA,B\n")
    [lc "Name", lc "DescriptionEn"] [[lc "A", lc "B"]]
    (by rfl) (by rfl) (by decide) (by rfl)

/-- C6 counterexample: a record with an unbalanced quote does not make the
load fail; the non-strict reader reads to end of data and the run proceeds,
contradicting the claim that malformed rows raise a ParseError. -/
theorem spec_c6_counterexample :
    load (some (utf8Encode (lc "a,\x22b"))) = .ok [[lc "a", lc "b"]] ∧
    load (some (utf8Encode (lc "a,\x22b"))) ≠ .error .parseError :=
  ⟨rfl, fun hcon => by rw [show load (some (utf8Encode (lc "a,\x22b")))
      = .ok [[lc "a", lc "b"]] from rfl] at hcon; cases hcon⟩

/-- C6 amended: the load fails with ioError exactly when the input path is
unreadable, and with parseError when the bytes are not valid UTF-8 or the
decoded text contains NUL; malformed CSV such as unbalanced quotes is
accepted leniently and never raises an error. -/
theorem spec_c6_amended (b : List Nat) :
    load none = .error .ioError ∧
    (utf8Decode b = none → load (some b) = .error .parseError) ∧
    load (some b) ≠ .error .ioError ∧
    (∀ cs, utf8Decode b = some cs → nulChar ∈ uniNewlines cs →
      load (some b) = .error .parseError) := by
  refine ⟨rfl, ?_, ?_, ?_⟩
  · intro h
    simp [load, h]
  · unfold load
    cases hdec : utf8Decode b with
    | none => simp [hdec]
    | some cs =>
      simp only [hdec]
      cases hp : parseCSV (uniNewlines cs) with
      | error e => simp [hp]
      | ok d => simp [hp]
  · intro cs hdec hnul
    unfold load
    simp only [hdec]
    unfold parseCSV
    rw [if_pos hnul]

/-- C6 witness: a missing file gives ioError and the byte 255 gives
parseError. -/
theorem spec_c6_witness :
    load none = .error .ioError ∧ load (some [255]) = .error .parseError :=
  ⟨(spec_c6_amended []).1, (spec_c6_amended [255]).2.1 (by rfl)⟩

theorem serDoc_count_cr (d : CsvDoc) (hclean : ∀ r ∈ d, ∀ f ∈ r, '\r' ∉ f) :
    (serDoc d).count '\r' = d.length := by
  induction d with
  | nil => rfl
  | cons r rs ih =>
    have hbody : '\r' ∉ (if r = [[]] then (['"', '"'] : List Char) else serFields r) := by
      intro hmem
      split at hmem
      · simp at hmem
      · rcases mem_serFields r '\r' hmem with ⟨f, hf, hc⟩ | h' | h'
        · exact hclean r (by simp) f hf hc
        · exact absurd h' (by decide)
        · exact absurd h' (by decide)
    rw [show serDoc (r :: rs) = serRow r ++ serDoc rs by simp [serDoc],
      List.count_append]
    unfold serRow
    rw [List.count_append, List.count_eq_zero.mpr hbody,
      ih (fun r' hr' => hclean r' (by simp [hr']))]
    simp only [List.count_cons, List.count_nil, List.length_cons]
    rw [if_neg (by decide : ¬ (('\n' == '\r') = true)),
      if_pos (by decide : (('\r' == '\r') = true))]
    omega

theorem serDoc_ends_crlf (d : CsvDoc) (hne : d ≠ []) :
    ∃ body, serDoc d = body ++ ['\r', '\n'] := by
  induction d with
  | nil => exact absurd rfl hne
  | cons r rs ih =>
    cases rs with
    | nil =>
      refine ⟨if r = [[]] then ['"', '"'] else serFields r, ?_⟩
      simp [serDoc, serRow]
    | cons r2 rs2 =>
      obtain ⟨body, hb⟩ := ih (by simp)
      refine ⟨serRow r ++ body, ?_⟩
      rw [show serDoc (r :: r2 :: rs2) = serRow r ++ serDoc (r2 :: rs2) by simp [serDoc],
        hb, List.append_assoc]

/-- C7 counterexample: on an input using LF line terminators the run
succeeds but the output uses CRLF, so the input's line terminator is not
preserved and the output does not differ from the input only in the
augmented column. -/
theorem spec_c7_counterexample :
    runText (lc "Name,DescriptionEn\nA,B\n")
        = .ok (lc "Name,DescriptionEn,DescriptionJa\r\nA,B,\r\n") ∧
    '\r' ∉ lc "Name,DescriptionEn\nA,B\n" ∧
    '\r' ∈ lc "Name,DescriptionEn,DescriptionJa\r\nA,B,\r\n" :=
  ⟨rfl, by decide, by decide⟩

/-- C7 amended: every successful run writes the csv.writer serialization of
the augmented document: comma-delimited fields, double-quote quoting that
the same reader parses back to exactly the augmented document, and a CRLF
terminator after every record (one CR per record, the output ends in CRLF)
regardless of the input's line terminator. -/
theorem spec_c7_amended (cs : List Char) (h₀ : CsvRow) (rows rows' : List CsvRow)
    (hparse : parseCSV (uniNewlines cs) = .ok (h₀ :: rows))
    (haug : augmentRows translations rows = some rows') :
    runText cs = .ok (serDoc (augmentHeader h₀ :: rows')) ∧
    parseCSV (uniNewlines (serDoc (augmentHeader h₀ :: rows')))
      = .ok (augmentHeader h₀ :: rows') ∧
    (serDoc (augmentHeader h₀ :: rows')).count '\r'
      = (augmentHeader h₀ :: rows').length ∧
    (∃ body, serDoc (augmentHeader h₀ :: rows') = body ++ ['\r', '\n']) := by
  have hdoc : augmentDoc translations (h₀ :: rows)
      = some (augmentHeader h₀ :: rows') := by
    simp [augmentDoc, haug]
  have hcleanOut : cleanDoc (augmentHeader h₀ :: rows') :=
    augmentDoc_clean translations (h₀ :: rows) _ translations_clean
      (parseCSV_clean cs _ hparse) hdoc
  refine ⟨?_, parse_serDoc_roundtrip _ hcleanOut,
    serDoc_count_cr _ (fun r hr f hf => (hcleanOut r hr f hf).1),
    serDoc_ends_crlf _ (by simp)⟩
  unfold runText
  simp only [hparse, haug]

/-- C7 amended witness at a concrete two-record input. -/
theorem spec_c7_witness :
    runText (lc "Name,DescriptionEn\nA,B\n")
        = .ok (serDoc (augmentHeader [lc "Name", lc "DescriptionEn"]
            :: [[lc "A", lc "B", []]])) ∧
    (serDoc (augmentHeader [lc "Name", lc "DescriptionEn"]
        :: [[lc "A", lc "B", []]])).count '\r'
      = (augmentHeader [lc "Name", lc "DescriptionEn"]
          :: [[lc "A", lc "B", []]]).length :=
  ⟨(spec_c7_amended (lc "Name,DescriptionEn\nA,B\n")
      [lc "Name", lc "DescriptionEn"] [[lc "A", lc "B"]] [[lc "A", lc "B", []]]
      (by rfl) (by decide)).1,
   (spec_c7_amended (lc "Name,DescriptionEn\nA,B\n")
      [lc "Name", lc "DescriptionEn"] [[lc "A", lc "B"]] [[lc "A", lc "B", []]]
      (by rfl) (by decide)).2.2.1⟩

theorem writeLoop_frame (hdr : CsvRow) (rows : List CsvRow) :
    ∀ (written : List CsvRow) (ro : Bool) (f : FS),
    (∀ e, (writeLoop hdr written rows ro f).2.2 = .error e →
      (writeLoop hdr written rows ro f).2.1.input = f.input) ∧
    (∀ s ∈ (writeLoop hdr written rows ro f).1,
      s.input = f.input ∨ ((writeLoop hdr written rows ro f).2.2 = .ok ()
        ∧ s.input = (writeLoop hdr written rows ro f).2.1.input)) := by
  induction rows with
  | nil =>
    intro written ro f
    by_cases hro : ro = true
    · subst hro
      constructor
      · intro e he
        simp [writeLoop] at he
      · intro s hs
        simp [writeLoop] at hs
        subst hs
        exact Or.inr ⟨rfl, rfl⟩
    · have hro' : ro = false := by simpa using hro
      subst hro'
      constructor
      · intro e _
        simp [writeLoop]
      · intro s hs
        simp [writeLoop] at hs
  | cons r rs ih =>
    intro written ro f
    cases hr : augmentRow translations r with
    | none =>
      constructor
      · intro e _
        simp [writeLoop, hr]
      · intro s hs
        simp [writeLoop, hr] at hs
    | some r' =>
      have hrw : writeLoop hdr written (r :: rs) ro f
          = (let f' : FS := ⟨f.input,
              some (utf8Encode (serDoc (hdr :: (written ++ [r']))))⟩
            let rest := writeLoop hdr (written ++ [r']) rs ro f'
            (f' :: rest.1, rest.2)) := by
        simp [writeLoop, hr]
      rw [hrw]
      simp only []
      set f' : FS := ⟨f.input,
        some (utf8Encode (serDoc (hdr :: (written ++ [r']))))⟩ with hf'
      have hfi : f'.input = f.input := rfl
      obtain ⟨iha, ihb⟩ := ih (written ++ [r']) ro f'
      constructor
      · intro e he
        exact (iha e he).trans hfi
      · intro s hs
        rcases List.mem_cons.mp hs with heq | hmem
        · exact Or.inl (heq ▸ hfi)
        · rcases ihb s hmem with h' | ⟨hok, hfin⟩
          · exact Or.inl (h'.trans hfi)
          · exact Or.inr ⟨hok, hfin⟩

/-- C5: whenever a run aborts with any error (unreadable input, undecodable
or NUL-containing content, missing header, short record, failing replace),
the contents at the final (input) path are unchanged; moreover every state
the run passes through has the input path holding either the original
contents or (only on a fully successful run) the final contents, so no
partially-written document is ever observable at the final path. -/
theorem spec_c5 (ro : Bool) (fs : FS) :
    (∀ e : Err, (runFS ro fs).2.2 = .error e → (runFS ro fs).2.1.input = fs.input) ∧
    (∀ s ∈ (runFS ro fs).1,
      s.input = fs.input ∨ ((runFS ro fs).2.2 = .ok ()
        ∧ s.input = (runFS ro fs).2.1.input)) := by
  cases hin : fs.input with
  | none =>
    constructor
    · intro e _
      simp [runFS, hin]
    · intro s hs
      simp [runFS, hin] at hs
  | some b =>
    cases hdec : utf8Decode b with
    | none =>
      constructor
      · intro e _
        simp [runFS, hin, hdec]
      · intro s hs
        simp [runFS, hin, hdec] at hs
        subst hs
        exact Or.inl rfl
    | some cs =>
      cases hp : parseCSV (uniNewlines cs) with
      | error pe =>
        constructor
        · intro e _
          simp [runFS, hin, hdec, hp]
        · intro s hs
          simp [runFS, hin, hdec, hp] at hs
          subst hs
          exact Or.inl rfl
      | ok d =>
        cases d with
        | nil =>
          constructor
          · intro e _
            simp [runFS, hin, hdec, hp]
          · intro s hs
            simp [runFS, hin, hdec, hp] at hs
            subst hs
            exact Or.inl rfl
        | cons h₀ rows =>
          have hrw : runFS ro fs
              = (let f1 : FS := ⟨fs.input, some []⟩
                let hdr := augmentHeader h₀
                let f2 : FS := ⟨fs.input, some (utf8Encode (serDoc [hdr]))⟩
                let rest := writeLoop hdr [] rows ro f2
                (f1 :: f2 :: rest.1, rest.2)) := by
            simp [runFS, hin, hdec, hp]
          rw [hrw]
          simp only []
          set f2 : FS := ⟨fs.input, some (utf8Encode (serDoc [augmentHeader h₀]))⟩
            with hf2
          have hf2i : f2.input = fs.input := rfl
          obtain ⟨wla, wlb⟩ := writeLoop_frame (augmentHeader h₀) rows [] ro f2
          constructor
          · intro e he
            exact ((wla e he).trans hf2i).trans hin
          · intro s hs
            rcases List.mem_cons.mp hs with heq | hmem
            · exact Or.inl (by rw [heq]; exact hin)
            · rcases List.mem_cons.mp hmem with heq | hmem2
              · exact Or.inl (heq ▸ (hf2i.trans hin))
              · rcases wlb s hmem2 with h' | ⟨hok, hfin⟩
                · exact Or.inl ((h'.trans hf2i).trans hin)
                · exact Or.inr ⟨hok, hfin⟩

/-- C5 witness: a run on an unreadable input path aborts and leaves the
input path unchanged. -/
theorem spec_c5_witness :
    (runFS true ⟨some [255], some [7]⟩).2.1.input
      = (FS.mk (some [255]) (some [7])).input :=
  (spec_c5 true ⟨some [255], some [7]⟩).1 .parseError (by rfl)
